import Mathlib

/-!
Verification of the csv-api-processor row pipeline engine.

The repository is a Node.js command-line tool that turns each row of a CSV
file into one or more outbound HTTP requests.  The source tree contains three
variants of `index.js` (called part_000, part_001 and part_002 below); the
multi-request engine with conditions and secondary-table loops lives in
part_000, a refactored multi-request engine is the second document of
part_001, and part_002 is a simplified rewrite.

This file gives a shallow embedding of the data model and the operations of
those engines: JSON-like values, the `Number()` string coercion, placeholder
resolution for payload templates and URL templates, condition evaluation,
response-field extraction, and the per-row orchestration loops (modelled as
pure functions that also return the trace of observable events: HTTP
dispatches, sleeps, row completions).  Host-language library routines
(`JSON.parse`, `encodeURIComponent`, `Number`) are modelled explicitly as
executable Lean functions over the fragment of their behaviour the program
exercises; each such model notes its scope in its doc comment.
-/

namespace CsvApi

/-- A JS number as an exact fraction: numerator over a positive denominator
(every construction in this file supplies a power of ten).  The engine only
manipulates decimal numerals, for which JS doubles behave exactly; the
fraction is kept unreduced so that all arithmetic is plain integer
computation, and numeric comparisons cross-multiply. -/
structure JNum where
  num : Int
  den : ℕ
deriving DecidableEq

/-- Numeric equality of two JS numbers. -/
def numEq (a b : JNum) : Bool := a.num * b.den = b.num * a.den

/-- Numeric strict order. -/
def numLt (a b : JNum) : Bool := a.num * b.den < b.num * a.den

/-- Numeric non-strict order. -/
def numLe (a b : JNum) : Bool := a.num * b.den ≤ b.num * a.den

/-- JSON-like runtime values as produced by `csv-parser` rows, configuration
files and HTTP response bodies. -/
inductive JValue where
  | null
  | bool (b : Bool)
  | num (q : JNum)
  | str (s : String)
  | arr (elems : List JValue)
  | obj (fields : List (String × JValue))

mutual

/-- Structural equality test on values (the derived handler is unavailable
for this nested inductive, so it is spelled out). -/
def JValue.beq : JValue → JValue → Bool
  | .null, .null => true
  | .bool a, .bool b => a == b
  | .num a, .num b => a == b
  | .str a, .str b => a == b
  | .arr as, .arr bs => JValue.beqList as bs
  | .obj afs, .obj bfs => JValue.beqFields afs bfs
  | _, _ => false

def JValue.beqList : List JValue → List JValue → Bool
  | [], [] => true
  | a :: as, b :: bs => JValue.beq a b && JValue.beqList as bs
  | _, _ => false

def JValue.beqFields : List (String × JValue) → List (String × JValue) → Bool
  | [], [] => true
  | (k, v) :: as, (l, w) :: bs => k == l && JValue.beq v w && JValue.beqFields as bs
  | _, _ => false

end

/-- Soundness of the equality test, packaged as a definition because the
decidable-equality instance below consumes it. -/
def JValue.beq_iff_eq : ∀ (a b : JValue), (JValue.beq a b = true) ↔ a = b := by
  refine JValue.beq.induct
    (fun a b => (JValue.beq a b = true) ↔ a = b)
    (fun as bs => (JValue.beqFields as bs = true) ↔ as = bs)
    (fun as bs => (JValue.beqList as bs = true) ↔ as = bs)
    ?_ ?_ ?_ ?_ ?_ ?_ ?_ ?_ ?_ ?_ ?_ ?_ ?_
  · simp [JValue.beq]
  · intro a b; simp [JValue.beq]
  · intro a b; simp [JValue.beq]
  · intro a b; simp [JValue.beq]
  · intro as bs h; simp [JValue.beq, h]
  · intro afs bfs h; simp [JValue.beq, h]
  · intro t x h1 h2 h3 h4 h5 h6
    cases t <;> cases x <;> simp_all [JValue.beq]
  · simp [JValue.beqList]
  · intro a as b bs h1 h2; simp [JValue.beqList, h1, h2]
  · intro t x h1 h2
    cases t <;> cases x <;> simp_all [JValue.beqList]
    exact False.elim ((h2 _ _ _ _ rfl rfl rfl) rfl)
  · simp [JValue.beqFields]
  · intro k v as l w bs h1 h2
    simp [JValue.beqFields, h1, h2, and_assoc]
  · intro t x h1 h2
    cases t <;> cases x <;> simp_all [JValue.beqFields]
    exact False.elim ((h2 _ _ _ _ _ _ rfl rfl rfl) rfl)

instance : DecidableEq JValue := fun a b =>
  decidable_of_iff (JValue.beq a b = true) (JValue.beq_iff_eq a b)

/-- A primary- or secondary-table row: column name to raw cell text, as
delivered by the CSV reader collaborator. -/
abbrev Row := List (String × String)

/-- The extracted-values store of one row's pipeline run.  A binding to
`none` models a JS property that is present but holds `undefined` (part_000's
extraction assigns the raw dot-walk result, which can be `undefined`). -/
abbrev ExtStore := List (String × Option JValue)

/-- Reading `extractedData[name]`: a missing binding and a binding to
`undefined` are indistinguishable to the `!== undefined` checks the code
performs, so both give `none`. -/
def extLookup (ext : ExtStore) (name : String) : Option JValue :=
  (ext.lookup name).bind id

/-- Store `extractedData[field] = v` (`v = none` models assigning
`undefined`).  Later assignments shadow earlier ones, as in a JS object. -/
def extInsert (ext : ExtStore) (field : String) (v : Option JValue) : ExtStore :=
  (field, v) :: ext

/-- JS truthiness, used by `response.data.json || response.data`. -/
def jsTruthy : JValue → Bool
  | .null => false
  | .bool b => b
  | .num q => q.num ≠ 0
  | .str s => s ≠ ""
  | .arr _ => true
  | .obj _ => true

/-! String helpers implemented over the character list, so that every
definition in this file computes by plain kernel reduction (the core
`String` versions use position-based loops that do not).  Each mirrors the
JS string method named in its comment. -/

/-- `s.trim()`. -/
def strTrim (s : String) : String :=
  String.mk (((s.toList.dropWhile Char.isWhitespace).reverse.dropWhile
    Char.isWhitespace).reverse)

/-- `s.startsWith(c)` for a one-character prefix. -/
def strStartsWithChar (s : String) (c : Char) : Bool :=
  match s.toList with
  | [] => false
  | c0 :: _ => c0 = c

/-- `s.endsWith(c)` for a one-character suffix. -/
def strEndsWithChar (s : String) (c : Char) : Bool :=
  match s.toList.getLast? with
  | some c0 => c0 = c
  | none => false

/-- `s.includes(c)` for one character. -/
def strContainsChar (s : String) (c : Char) : Bool := s.toList.any (· = c)

def splitOnCharAux (c : Char) : List Char → List Char → List String
  | [], acc => [String.mk acc.reverse]
  | d :: rest, acc =>
      if d = c then String.mk acc.reverse :: splitOnCharAux c rest []
      else splitOnCharAux c rest (d :: acc)

/-- `s.split(c)` for a one-character separator. -/
def strSplitOnChar (s : String) (c : Char) : List String := splitOnCharAux c s.toList []

def digitVal (c : Char) : ℕ := c.toNat - '0'.toNat

def digitsToNat (cs : List Char) : ℕ :=
  cs.foldl (fun acc c => 10 * acc + digitVal c) 0

/-- Value of `sign intPart.fracPart` as a JS number. -/
def decToNum (sign : Int) (intPart fracPart : List Char) : JNum :=
  ⟨sign * ((digitsToNat intPart * 10 ^ fracPart.length + digitsToNat fracPart : ℕ) : Int),
    10 ^ fracPart.length⟩

/-- Model of the JS `Number(s)` conversion for strings, on the fragment the
program meets: surrounding whitespace is trimmed, the empty (or all-blank)
string converts to `0`, and otherwise an optionally signed decimal numeral
(`123`, `007`, `1.5`, `.5`, `5.`) is parsed.  `none` models `NaN`.  Hex,
exponent and `Infinity` forms never occur in the repository's data and are
modelled as `NaN`. -/
def jsToNumber (s : String) : Option JNum :=
  let t := strTrim s
  if t = "" then some ⟨0, 1⟩
  else
    let cs := t.toList
    let signBody : Int × List Char :=
      match cs with
      | '-' :: rest => (-1, rest)
      | '+' :: rest => (1, rest)
      | _ => (1, cs)
    let sign := signBody.1
    let body := signBody.2
    let ip := body.takeWhile (·.isDigit)
    let rest := body.drop ip.length
    match rest with
    | [] => if ip = [] then none else some (decToNum sign ip [])
    | '.' :: fp =>
        if fp.all (·.isDigit) ∧ (ip ≠ [] ∨ fp ≠ []) then
          some (decToNum sign ip fp)
        else none
    | _ => none

/-- The generic cell coercion of `replacePlaceholders` (part_000 lines
124-137, identically in the other variants): `'null'`/`''` to null,
`'true'`/`'false'` to booleans, then `!isNaN(Number(value)) &&
value.trim() !== ''` to a number, otherwise the original string. -/
def coerceCell (value : String) : JValue :=
  if value = "null" ∨ value = "" then .null
  else if value = "true" then .bool true
  else if value = "false" then .bool false
  else
    match jsToNumber value with
    | some q => if strTrim value = "" then .str value else .num q
    | none => .str value

/-! ### A model of `JSON.parse`

Used by the `offeringProducts` special case.  Executable recursive-descent
parser for the JSON grammar (strings with the standard escapes, numbers with
optional fraction and exponent and without leading zeros, arrays, objects,
literals); recursion is bounded by explicit fuel. -/

def isJsonWs (c : Char) : Bool :=
  c = ' ' ∨ c = '\t' ∨ c = '\n' ∨ c = '\r'

def skipWs (cs : List Char) : List Char := cs.dropWhile isJsonWs

def hexVal (c : Char) : Option ℕ :=
  if c.isDigit then some (c.toNat - '0'.toNat)
  else if 'a' ≤ c ∧ c ≤ 'f' then some (c.toNat - 'a'.toNat + 10)
  else if 'A' ≤ c ∧ c ≤ 'F' then some (c.toNat - 'A'.toNat + 10)
  else none

/-- Scan a JSON string body (the opening quote already consumed), returning
the decoded characters and the remaining input. -/
def scanJsonString : List Char → Option (List Char × List Char)
  | [] => none
  | '"' :: rest => some ([], rest)
  | '\\' :: esc =>
    match esc with
    | [] => none
    | 'u' :: a :: b :: c :: d :: rest => do
        let ha ← hexVal a
        let hb ← hexVal b
        let hc ← hexVal c
        let hd ← hexVal d
        let n := ((ha * 16 + hb) * 16 + hc) * 16 + hd
        let ch := if h : n < 0xd800 then Char.ofNatAux n (by omega) else Char.ofNat n
        let p ← scanJsonString rest
        pure (ch :: p.1, p.2)
    | e :: rest => do
        let ch ← match e with
          | '"' => some '"'
          | '\\' => some '\\'
          | '/' => some '/'
          | 'b' => some (Char.ofNat 8)
          | 'f' => some (Char.ofNat 12)
          | 'n' => some '\n'
          | 'r' => some '\r'
          | 't' => some '\t'
          | _ => none
        let p ← scanJsonString rest
        pure (ch :: p.1, p.2)
  | c :: rest => do
      let p ← scanJsonString rest
      pure (c :: p.1, p.2)

/-- Parse a JSON number (strict grammar: optional minus, integer part without
leading zeros, optional fraction, optional exponent). -/
def scanJsonNumber (cs : List Char) : Option (JNum × List Char) :=
  let signRest : Int × List Char :=
    match cs with
    | '-' :: r => (-1, r)
    | _ => (1, cs)
  let sign := signRest.1
  let cs1 := signRest.2
  let ip := cs1.takeWhile (·.isDigit)
  if ip = [] then none
  else if ip.length > 1 ∧ ip.headD '0' = '0' then none
  else
    let cs2 := cs1.drop ip.length
    let fracRest : Option (List Char × List Char) :=
      match cs2 with
      | '.' :: r =>
          let fp := r.takeWhile (·.isDigit)
          if fp = [] then none else some (fp, r.drop fp.length)
      | _ => some ([], cs2)
    match fracRest with
    | none => none
    | some (fp, cs3) =>
      let expRest : Option (Int × List Char) :=
        match cs3 with
        | 'e' :: r | 'E' :: r =>
            let esign : Int × List Char :=
              match r with
              | '-' :: r2 => (-1, r2)
              | '+' :: r2 => (1, r2)
              | _ => (1, r)
            let ed := esign.2.takeWhile (·.isDigit)
            if ed = [] then none
            else some (esign.1 * (digitsToNat ed : Int), esign.2.drop ed.length)
        | _ => some (0, cs3)
      match expRest with
      | none => none
      | some (e, cs4) =>
          let base := decToNum sign ip fp
          let scaled : JNum :=
            if 0 ≤ e then ⟨base.num * 10 ^ e.toNat, base.den⟩
            else ⟨base.num, base.den * 10 ^ (-e).toNat⟩
          some (scaled, cs4)

mutual

/-- Parse one JSON value; fuel bounds the recursion depth. -/
def scanJsonValue : ℕ → List Char → Option (JValue × List Char)
  | 0, _ => none
  | fuel + 1, cs =>
    match skipWs cs with
    | 'n' :: 'u' :: 'l' :: 'l' :: rest => some (.null, rest)
    | 't' :: 'r' :: 'u' :: 'e' :: rest => some (.bool true, rest)
    | 'f' :: 'a' :: 'l' :: 's' :: 'e' :: rest => some (.bool false, rest)
    | '"' :: rest =>
        (scanJsonString rest).map fun p => (.str (String.mk p.1), p.2)
    | '[' :: rest =>
        match skipWs rest with
        | ']' :: r => some (.arr [], r)
        | _ => scanJsonArr fuel rest []
    | '{' :: rest =>
        match skipWs rest with
        | '}' :: r => some (.obj [], r)
        | _ => scanJsonObj fuel rest []
    | other => (scanJsonNumber other).map fun p => (.num p.1, p.2)

/-- Parse the elements of a JSON array after `[` (at least one element). -/
def scanJsonArr : ℕ → List Char → List JValue → Option (JValue × List Char)
  | 0, _, _ => none
  | fuel + 1, cs, acc =>
    match scanJsonValue fuel cs with
    | none => none
    | some (v, rest) =>
      match skipWs rest with
      | ',' :: r => scanJsonArr fuel r (acc ++ [v])
      | ']' :: r => some (.arr (acc ++ [v]), r)
      | _ => none

/-- Parse the members of a JSON object after `{` (at least one member). -/
def scanJsonObj : ℕ → List Char → List (String × JValue) →
    Option (JValue × List Char)
  | 0, _, _ => none
  | fuel + 1, cs, acc =>
    match skipWs cs with
    | '"' :: rest =>
      match scanJsonString rest with
      | none => none
      | some (key, rest1) =>
        match skipWs rest1 with
        | ':' :: rest2 =>
          match scanJsonValue fuel rest2 with
          | none => none
          | some (v, rest3) =>
            match skipWs rest3 with
            | ',' :: r => scanJsonObj fuel r (acc ++ [(String.mk key, v)])
            | '}' :: r => some (.obj (acc ++ [(String.mk key, v)]), r)
            | _ => none
        | _ => none
    | _ => none

end

/-- Model of `JSON.parse`: parse the whole string as one JSON value;
`none` models a thrown `SyntaxError`. -/
def jsonParse (s : String) : Option JValue :=
  match scanJsonValue (2 * s.length + 8) s.toList with
  | some (v, rest) => if skipWs rest = [] then some v else none
  | none => none

/-! ### Payload placeholder resolution (part_000 `replacePlaceholders`)

The source deep-clones the template and mutates the clone in place while
only ever reading `rowData`/`extractedData`; the embedding is the
corresponding pure tree transform.  Besides the substituted template it
returns the list of warnings printed (the only payload warning the source
emits is the `offeringProducts` parse-failure one; a missing placeholder is
left in place silently). -/

def isNull : JValue → Bool
  | .null => true
  | _ => false

/-- Plain JS property access `v[key]` on a defined, non-null value: object
member lookup, numeric indexing into arrays; access on primitives yields
`undefined` (built-in properties such as `length` are not modelled — the
engine's dot paths never name them). -/
def jsIndexVal (v : JValue) (key : String) : Option JValue :=
  match v with
  | .obj fs => fs.lookup key
  | .arr xs => key.toNat?.bind fun i => xs.get? i
  | _ => none

/-- The loop `for (const part of pathParts) { if (value === undefined ||
value === null) break; value = value[part]; }`: index part by part, breaking
(and keeping the offending value) when undefined or null is reached. -/
def walkVals : Option JValue → List String → Option JValue
  | v, [] => v
  | none, _ :: _ => none
  | some .null, _ :: _ => some .null
  | some v, p :: ps => walkVals (jsIndexVal v p) ps

/-- Dot-path walk of part_000 lines 89-100: the first part indexes the
extracted-values store, the rest walk nested values. -/
def walkExtPath (ext : ExtStore) (parts : List String) : Option JValue :=
  match parts with
  | [] => none
  | p :: ps => walkVals (extLookup ext p) ps

/-- The `offeringProducts` special case (part_000 lines 107-123): a
non-blank string is trimmed, wrapped in brackets unless already bracketed,
and JSON-parsed; a parse failure warns and yields null; a blank value yields
null silently. -/
def offeringResolve (value : String) : JValue × List String :=
  if strTrim value ≠ "" then
    let t := strTrim value
    let jsonString :=
      if strStartsWithChar t '[' ∧ strEndsWithChar t ']' then t else "[" ++ t ++ "]"
    match jsonParse jsonString with
    | some j => (j, [])
    | none => (.null, ["offeringProducts failed to parse: " ++ jsonString])
  else (.null, [])

/-- Substitution of one string leaf of the payload template (part_000 lines
85-139): `$`-prefixed leaves are looked up — dot paths against nested
extracted values first, then the flat extracted layer, then the row with
cell coercion — and a leaf whose name resolves nowhere is kept verbatim. -/
def leafResolve (rowData : Row) (extractedData : ExtStore) (s : String) :
    JValue × List String :=
  if ¬ strStartsWithChar s '$' then (.str s, [])
  else
    let placeholderName := s.drop 1
    let dotted : Option JValue :=
      if strContainsChar placeholderName '.' then
        match walkExtPath extractedData (strSplitOnChar placeholderName '.') with
        | some v => if isNull v then none else some v
        | none => none
      else none
    match dotted with
    | some v => (v, [])
    | none =>
      match extLookup extractedData placeholderName with
      | some v => (v, [])
      | none =>
        match rowData.lookup placeholderName with
        | some value =>
            if placeholderName = "offeringProducts" then offeringResolve value
            else (coerceCell value, [])
        | none => (.str s, [])

mutual

/-- The recursive `traverse` of part_000: rewrite every string child of an
object or array, descending into nested containers. -/
def resolveNode (rowData : Row) (extractedData : ExtStore) : JValue → JValue × List String
  | .str s => leafResolve rowData extractedData s
  | .arr xs =>
      let p := resolveElems rowData extractedData xs
      (.arr p.1, p.2)
  | .obj fs =>
      let p := resolveFields rowData extractedData fs
      (.obj p.1, p.2)
  | v => (v, [])
termination_by structural v => v

/-- Children of an array node, in order. -/
def resolveElems (rowData : Row) (extractedData : ExtStore) :
    List JValue → List JValue × List String
  | [] => ([], [])
  | x :: xs =>
      let p := resolveNode rowData extractedData x
      let q := resolveElems rowData extractedData xs
      (p.1 :: q.1, p.2 ++ q.2)
termination_by structural l => l

/-- Children of an object node, in key order. -/
def resolveFields (rowData : Row) (extractedData : ExtStore) :
    List (String × JValue) → List (String × JValue) × List String
  | [] => ([], [])
  | (k, v) :: fs =>
      let p := resolveNode rowData extractedData v
      let q := resolveFields rowData extractedData fs
      ((k, p.1) :: q.1, p.2 ++ q.2)
termination_by structural l => l

end

/-- part_000 `replacePlaceholders`: clone the template and substitute every
string leaf below the root (a non-container root is returned unchanged, as
`for...in` finds nothing to rewrite on it). -/
def replacePlaceholders (template : JValue) (rowData : Row) (extractedData : ExtStore) :
    JValue × List String :=
  match template with
  | .obj fs => resolveNode rowData extractedData (.obj fs)
  | .arr xs => resolveNode rowData extractedData (.arr xs)
  | other => (other, [])

/-! ### URL placeholder resolution (`replaceUrlPlaceholders`)

The source applies `urlTemplate.replace(/(?<!\$)\$([a-zA-Z0-9_]+)/g, ...)`,
replacing each matched token by `encodeURIComponent(dataContext[name])` when
that property is neither undefined nor null, and otherwise warning and
keeping the token.  `dataContext` is the spread `{...row, ...extracted}`:
a binding list in which the extracted layer shadows the row layer. -/

/-- A data context: property name to value, `none` modelling a property
whose value is `undefined`; the first binding for a name wins. -/
abbrev DataCtx := List (String × Option JValue)

def jsGet (ctx : DataCtx) (name : String) : Option JValue :=
  (ctx.lookup name).bind id

/-- `{...row, ...extracted}`: extracted properties overwrite row columns,
including properties that hold `undefined`. -/
def mergeCtx (rowData : Row) (extractedData : ExtStore) : DataCtx :=
  extractedData ++ rowData.map fun kv => (kv.1, some (.str kv.2))

def utf8Bytes (c : Char) : List ℕ :=
  let n := c.toNat
  if n < 0x80 then [n]
  else if n < 0x800 then [0xC0 + n / 64, 0x80 + n % 64]
  else if n < 0x10000 then
    [0xE0 + n / 4096, 0x80 + (n / 64) % 64, 0x80 + n % 64]
  else
    [0xF0 + n / 262144, 0x80 + (n / 4096) % 64, 0x80 + (n / 64) % 64, 0x80 + n % 64]

def hexDigit (n : ℕ) : Char :=
  if n < 10 then Char.ofNat ('0'.toNat + n) else Char.ofNat ('A'.toNat + n - 10)

def isUriUnreserved (c : Char) : Bool :=
  c.isAlpha ∨ c.isDigit ∨ c ∈ (['-', '_', '.', '!', '~', '*', '\'', '(', ')'] : List Char)

/-- Model of `encodeURIComponent`: unreserved characters pass through, all
others are percent-encoded byte by byte from their UTF-8 form. -/
def encodeURIComponent (s : String) : String :=
  String.mk ((s.toList.map fun c =>
    if isUriUnreserved c then [c]
    else (utf8Bytes c).map (fun b => [['%', hexDigit (b / 16), hexDigit (b % 16)]]) |>.flatten.flatten).flatten)

mutual

/-- JS `String(v)` for the values the URL resolver can see (never null or
undefined thanks to its guard): strings as themselves, numbers in decimal
(the engine only meets integers; a non-integral rational is rendered as a
fraction, a deliberate deviation noted since JS would print a decimal
expansion), booleans as words, arrays comma-joined, objects as the generic
object tag. -/
def jsValToString : JValue → String
  | .null => "null"
  | .bool b => if b then "true" else "false"
  | .num q => if q.den = 1 then toString q.num else toString q.num ++ "/" ++ toString q.den
  | .str s => s
  | .arr xs => jsValsToString xs
  | .obj _ => "[object Object]"
termination_by structural v => v

/-- Array elements comma-joined, as `Array.prototype.toString` does. -/
def jsValsToString : List JValue → String
  | [] => ""
  | [x] => jsValToString x
  | x :: xs => jsValToString x ++ "," ++ jsValsToString xs
termination_by structural l => l

end

def isWordChar (c : Char) : Bool := c.isAlpha ∨ c.isDigit ∨ c = '_'

/-- The global-regex scan of `replaceUrlPlaceholders`: walk the template
left to right; `prevDollar` records whether the previous source character
was `$` (the negative lookbehind).  A token `$name` (one or more word
characters, not preceded by `$`) whose context value is defined and non-null
is replaced by its percent-encoded string form; otherwise the token is kept
and a warning for `name` is recorded.  Recursion is bounded by fuel, which
the entry point supplies in excess (every step consumes at least one source
character). -/
def scanUrl (ctx : DataCtx) : ℕ → Bool → List Char → List Char × List String
  | 0, _, cs => (cs, [])
  | fuel + 1, prevDollar, cs =>
    match cs with
    | [] => ([], [])
    | '$' :: rest =>
      if prevDollar then
        let p := scanUrl ctx fuel true rest
        ('$' :: p.1, p.2)
      else
        let nameCs := rest.takeWhile isWordChar
        if nameCs = [] then
          let p := scanUrl ctx fuel true rest
          ('$' :: p.1, p.2)
        else
          let name := String.mk nameCs
          let tail := rest.drop nameCs.length
          match jsGet ctx name with
          | some v =>
            if isNull v then
              let p := scanUrl ctx fuel false tail
              ('$' :: nameCs ++ p.1, name :: p.2)
            else
              let p := scanUrl ctx fuel false tail
              ((encodeURIComponent (jsValToString v)).toList ++ p.1, p.2)
          | none =>
              let p := scanUrl ctx fuel false tail
              ('$' :: nameCs ++ p.1, name :: p.2)
    | c :: rest =>
        let p := scanUrl ctx fuel (c = '$') rest
        (c :: p.1, p.2)

/-- `replaceUrlPlaceholders` (part_000 lines 149-158): substitute every
`$name` token of the URL template from the data context, returning the
resulting URL and the warnings for unresolved tokens. -/
def replaceUrlPlaceholders (urlTemplate : String) (dataContext : DataCtx) :
    String × List String :=
  let cs := urlTemplate.toList
  let p := scanUrl dataContext (cs.length + 1) false cs
  (String.mk p.1, p.2)

/-! ### Condition evaluation

Two variants exist in the repository.  The multi-request engine (part_000
lines 259-295) takes a condition object `{type, left, operator, right}` and
resolves `$name` operands against the extracted-values store only — the call
site `evaluateCondition(request.condition, extractedData)` passes no row
data.  The simplified rewrite (part_002 lines 33-47) takes `{field,
operator, value}` and reads the field from the row only. -/

/-- A condition as found in the configuration of the multi-request engine:
`{type: 'comparison', left, operator, right}`, or any other `type`. -/
inductive CondP0 where
  | comparison (left : JValue) (op : String) (right : JValue)
  | other
deriving DecidableEq

/-- `Number(x)` on an arbitrary JS value (`none` models NaN): undefined is
NaN, null is 0, booleans are 0/1, numbers are themselves, strings parse via
`jsToNumber`.  Arrays and objects coerce through their string form in JS;
the engine's conditions never compare structured values, so they are
modelled as NaN. -/
def jsNumberOf : Option JValue → Option JNum
  | none => none
  | some .null => some ⟨0, 1⟩
  | some (.bool b) => some (if b then ⟨1, 1⟩ else ⟨0, 1⟩)
  | some (.num q) => some q
  | some (.str s) => jsToNumber s
  | some (.arr _) => none
  | some (.obj _) => none

/-- A condition operand after the `if (!isNaN(x)) x = Number(x)` step:
either a number, or `undefined`, or a remaining non-numeric value. -/
inductive COperand where
  | num (q : JNum)
  | undef
  | val (v : JValue)

/-- Operand variable substitution (part_000 lines 266-272): a string
starting with `$` is replaced by `extractedData[name]` (possibly
undefined); every other literal passes through. -/
def resolveOperand (extractedData : ExtStore) (v : JValue) : Option JValue :=
  match v with
  | .str s =>
      if strStartsWithChar s '$' then extLookup extractedData (s.drop 1) else some (.str s)
  | w => some w

/-- The numeric-coercion step of part_000 lines 274-276. -/
def coerceOperand (x : Option JValue) : COperand :=
  match jsNumberOf x with
  | some q => .num q
  | none =>
    match x with
    | none => .undef
    | some v => .val v

/-- JS `>` on coerced operands: numeric comparison when both are numbers,
lexicographic comparison for two (non-numeric) strings, and false whenever a
side is undefined or otherwise coerces to NaN (structured values are
modelled in that bucket). -/
def cmpGt : COperand → COperand → Bool
  | .num a, .num b => numLt b a
  | .val (.str a), .val (.str b) => b < a
  | _, _ => false

/-- JS `>=` on coerced operands, analogously. -/
def cmpGe : COperand → COperand → Bool
  | .num a, .num b => numLe b a
  | .val (.str a), .val (.str b) => b ≤ a
  | _, _ => false

/-- JS loose equality `==` on coerced operands.  After the numeric-coercion
step the possible shapes are numbers, undefined, non-numeric strings and
structured values; `undefined == undefined` holds, numbers and strings
compare by value, a non-numeric string against a number is NaN on one side
and false, and structured values compare by reference (false for the
separately resolved operands of a condition). -/
def looseEq : COperand → COperand → Bool
  | .num a, .num b => numEq a b
  | .val (.str a), .val (.str b) => a = b
  | .undef, .undef => true
  | _, _ => false

/-- JS strict equality `===` on coerced operands; on this operand space it
agrees with loose equality (null can no longer occur: the coercion step
turned it into 0). -/
def strictEq : COperand → COperand → Bool
  | .num a, .num b => numEq a b
  | .val (.str a), .val (.str b) => a = b
  | .undef, .undef => true
  | _, _ => false

/-- The operator dispatch of part_000 lines 281-291: the eight comparison
operators, with every unrecognized operator defaulting to true. -/
def evalComparison (op : String) (l r : COperand) : Bool :=
  if op = ">" then cmpGt l r
  else if op = ">=" then cmpGe l r
  else if op = "<" then cmpGt r l
  else if op = "<=" then cmpGe r l
  else if op = "==" then looseEq l r
  else if op = "===" then strictEq l r
  else if op = "!=" then ¬ looseEq l r
  else if op = "!==" then ¬ strictEq l r
  else true

/-- part_000 `evaluateCondition`: no condition or a non-comparison type
always runs; comparison conditions resolve both operands against the
extracted-values store, numerically coerce them, and dispatch on the
operator. -/
def evaluateCondition (condition : Option CondP0) (extractedData : ExtStore) : Bool :=
  match condition with
  | none => true
  | some .other => true
  | some (.comparison left op right) =>
      evalComparison op
        (coerceOperand (resolveOperand extractedData left))
        (coerceOperand (resolveOperand extractedData right))

/-- A condition of the simplified rewrite (part_002): `{field, operator,
value}`. -/
structure CondP2 where
  field : String
  operator : String
  value : JValue
deriving DecidableEq

/-- JS loose equality between a row cell (possibly undefined) and a
configuration literal, as used by part_002's `==`/`!=`: an undefined cell
equals only null or undefined; a string cell equals a string by value, a
number or boolean through numeric coercion; comparisons against structured
values go through object-to-primitive coercion, which the engine's
configurations never exercise, modelled false. -/
def looseEqCell (fieldValue : Option String) (value : JValue) : Bool :=
  match fieldValue, value with
  | none, .null => true
  | none, _ => false
  | some s, .str t => s = t
  | some s, .num q =>
      match jsToNumber s with
      | some n => numEq n q
      | none => false
  | some s, .bool b =>
      match jsToNumber s with
      | some n => numEq n (if b then ⟨1, 1⟩ else ⟨0, 1⟩)
      | none => false
  | some _, .null => false
  | some _, .arr _ => false
  | some _, .obj _ => false

/-- `Number(fieldValue)` for a possibly-undefined row cell (`none` is NaN). -/
def numOfCell : Option String → Option JNum
  | none => none
  | some s => jsToNumber s

namespace Part002

/-- part_002 `evaluateCondition`: read the field from the row, then compare.
Relational operators coerce both sides with `Number(...)` (NaN makes them
false), `==`/`!=` use loose equality, `exists` tests presence, and every
unrecognized operator yields false. -/
def evaluateCondition (condition : CondP2) (row : Row) : Bool :=
  let fieldValue := row.lookup condition.field
  let numField := numOfCell fieldValue
  let numValue := jsNumberOf (some condition.value)
  let rel (f : JNum → JNum → Bool) : Bool :=
    match numField, numValue with
    | some a, some b => f a b
    | _, _ => false
  if condition.operator = ">" then rel (fun a b => numLt b a)
  else if condition.operator = "<" then rel (fun a b => numLt a b)
  else if condition.operator = ">=" then rel (fun a b => numLe b a)
  else if condition.operator = "<=" then rel (fun a b => numLe a b)
  else if condition.operator = "==" then looseEqCell fieldValue condition.value
  else if condition.operator = "!=" then ¬ looseEqCell fieldValue condition.value
  else if condition.operator = "exists" then
    match condition.value with
    | .bool true => fieldValue.isSome
    | _ => fieldValue.isNone
  else false

end Part002

/-! ### Response-field extraction

part_000 (lines 386-399 and 446-460) extracts with
`jsonPath.split('.').reduce((obj, key) => obj?.[key], response.data.json ||
response.data)` and assigns the raw result — possibly `undefined` — with no
warning.  The refactored engine of part_001 (second document, lines
847-877) walks the path with explicit undefined/null checks, stores null on
failure and warns. -/

/-- One extraction spec: `{field, jsonPath}`. -/
structure ExtractSpec where
  field : String
  jsonPath : String
deriving DecidableEq

/-- `response.data.json || response.data`. -/
def responseRoot (data : JValue) : JValue :=
  match data with
  | .obj fs =>
    match fs.lookup "json" with
    | some v => if jsTruthy v then v else .obj fs
    | none => .obj fs
  | d => d

/-- One step of the optional-chaining reduce `(obj, key) => obj?.[key]`. -/
def jsIndexOpt (v : Option JValue) (key : String) : Option JValue :=
  match v with
  | none => none
  | some .null => none
  | some w => jsIndexVal w key

/-- The part_000 dot-path dig over a response body. -/
def digPath (root : JValue) (jsonPath : String) : Option JValue :=
  (strSplitOnChar jsonPath '.').foldl jsIndexOpt (some root)

/-- part_000 extraction: assign the dig result for every spec (a missing
path stores `undefined`); this variant prints no warnings, which the empty
second component records. -/
def extractFromResponseP0 (specs : List ExtractSpec) (data : JValue) (ext : ExtStore) :
    ExtStore × List String :=
  (specs.foldl
    (fun acc spec => extInsert acc spec.field (digPath (responseRoot data) spec.jsonPath))
    ext, [])

/-- The guarded walk of part_001's extraction: before each path part, a
current value of undefined or null warns and breaks (the flag records the
warning); otherwise the part indexes into the value. -/
def walkP1 : Option JValue → List String → Option JValue × Bool
  | v, [] => (v, false)
  | none, _ :: _ => (none, true)
  | some .null, _ :: _ => (some .null, true)
  | some v, p :: ps => walkP1 (jsIndexVal v p) ps

/-- part_001 extraction: walk the path; a defined non-null result is
stored, anything else stores null for the target field and warns. -/
def extractFromResponseP1 (spec : ExtractSpec) (data : JValue) (ext : ExtStore) :
    ExtStore × List String :=
  let w := walkP1 (some data) (strSplitOnChar spec.jsonPath '.')
  let loopWarns := if w.2 then ["path part not found in " ++ spec.jsonPath] else []
  match w.1 with
  | some v =>
      if isNull v then
        (extInsert ext spec.field (some .null),
          loopWarns ++ ["could not extract " ++ spec.field])
      else (extInsert ext spec.field (some v), loopWarns)
  | none =>
      (extInsert ext spec.field (some .null),
        loopWarns ++ ["could not extract " ++ spec.field])

/-! ### The multi-request orchestrator of part_000

`processCSV` reads all rows, then for each row runs the request sequence
with a fresh extracted-values store: evaluate the step's condition (against
extracted values), skip on false; otherwise resolve payload and URL and
dispatch — once per secondary-table row for a `loopOver` step, once against
the primary row otherwise.  After every successful dispatch the configured
delay is awaited.  A failed dispatch logs a structured error record and
throws; the per-row catch records the failure and the loop proceeds with
the next row.  The embedding models the HTTP transport as a function from
the global dispatch counter to a response or a structured error, and
returns the trace of observable events.  Interactive mode is off. -/

/-- A structured transport failure: HTTP status when a response arrived,
the response body when available, and the error message. -/
structure ErrInfo where
  status : Option ℕ
  data : Option JValue
  message : String
deriving DecidableEq

/-- The HTTP transport collaborator: the n-th dispatch of the run returns a
parsed response body or raises a structured failure. -/
abbrev Transport := ℕ → Except ErrInfo JValue

/-- Observable events of a run: an HTTP dispatch (tagged with the 1-based
row number, step name, resolved URL and payload), an awaited delay, and a
row reaching its terminal state. -/
inductive Event where
  | call (rowNumber : ℕ) (stepName : String) (url : String) (payload : JValue)
  | sleep
  | rowEnd (rowNumber : ℕ)
deriving DecidableEq

structure Request where
  name : String
  endpoint : String
  method : String
  payloadTemplate : JValue
  condition : Option CondP0 := none
  loopOver : Bool := false
  extractFromResponse : List ExtractSpec := []
deriving DecidableEq

/-- A step failure as thrown by the inner catch blocks: the failing step's
name together with the transport error. -/
structure StepFail where
  name : String
  err : ErrInfo
deriving DecidableEq

/-- State threaded through one row's step sequence: the transport dispatch
counter, the events so far, the extracted values, and the pending failure. -/
structure ExecState where
  calls : ℕ
  events : List Event
  ext : ExtStore
  fail : Option StepFail
deriving DecidableEq

/-- One HTTP dispatch of part_000 (either branch of the per-request body):
resolve payload against the context row and extracted values, resolve the
URL against their spread, dispatch; on success run extraction and await the
configured delay; on failure carry the step name and error. -/
def doCallP0 (tr : Transport) (delay : ℕ) (req : Request) (ctxRow : Row) (rowNum : ℕ)
    (ext : ExtStore) (k : ℕ) : ExecState :=
  let payload := (replacePlaceholders req.payloadTemplate ctxRow ext).1
  let url := (replaceUrlPlaceholders req.endpoint (mergeCtx ctxRow ext)).1
  match tr k with
  | .ok respData =>
      let ext' := (extractFromResponseP0 req.extractFromResponse respData ext).1
      ⟨k + 1,
        Event.call rowNum req.name url payload :: (if delay > 0 then [Event.sleep] else []),
        ext', none⟩
  | .error e =>
      ⟨k + 1, [Event.call rowNum req.name url payload], ext, some ⟨req.name, e⟩⟩

/-- The loop-step body: repeat the dispatch once per secondary-table row,
stopping at the first failure. -/
def loopCallsP0 (tr : Transport) (delay : ℕ) (req : Request) (rowNum : ℕ) :
    List Row → ExtStore → ℕ → ExecState
  | [], ext, k => ⟨k, [], ext, none⟩
  | lr :: rest, ext, k =>
      let s := doCallP0 tr delay req lr rowNum ext k
      match s.fail with
      | some _ => s
      | none =>
          let s2 := loopCallsP0 tr delay req rowNum rest s.ext s.calls
          ⟨s2.calls, s.events ++ s2.events, s2.ext, s2.fail⟩

/-- One step of the part_000 sequence: a false condition skips the step
entirely; a loop step iterates the secondary table; a plain step dispatches
once against the primary row. -/
def execStepP0 (tr : Transport) (delay : ℕ) (loopData : List Row) (row : Row) (rowNum : ℕ)
    (req : Request) (ext : ExtStore) (k : ℕ) : ExecState :=
  if ¬ evaluateCondition req.condition ext then ⟨k, [], ext, none⟩
  else if req.loopOver then loopCallsP0 tr delay req rowNum loopData ext k
  else doCallP0 tr delay req row rowNum ext k

/-- The per-row sequence of part_000: execute steps in order, stopping at
the first failure (the inner `throw`). -/
def runStepsP0 (tr : Transport) (delay : ℕ) (loopData : List Row) (row : Row) (rowNum : ℕ) :
    List Request → ExtStore → ℕ → ExecState
  | [], ext, k => ⟨k, [], ext, none⟩
  | req :: rest, ext, k =>
      let s := execStepP0 tr delay loopData row rowNum req ext k
      match s.fail with
      | some _ => s
      | none =>
          let s2 := runStepsP0 tr delay loopData row rowNum rest s.ext s.calls
          ⟨s2.calls, s.events ++ s2.events, s2.ext, s2.fail⟩

/-- The per-row outcome pushed into `results`. -/
structure RowResult where
  rowNumber : ℕ
  success : Bool
  error : Option String
deriving DecidableEq

/-- One record appended to the error log by `logError`. -/
structure LogEntry where
  rowNumber : ℕ
  requestName : String
  status : Option ℕ
deriving DecidableEq

/-- The outcome of processing one row: final dispatch counter, events, the
`results` entry, and the error-log records produced for the row. -/
structure RowRun where
  calls : ℕ
  events : List Event
  result : RowResult
  log : List LogEntry
deriving DecidableEq

/-- part_000 row processing: run the step sequence from an empty
extracted-values store; a failure yields a failed results entry carrying
the error message and a log record carrying the failing step's name and
status. -/
def processRowP0 (tr : Transport) (delay : ℕ) (reqs : List Request) (loopData : List Row)
    (rowNum : ℕ) (row : Row) (k : ℕ) : RowRun :=
  let s := runStepsP0 tr delay loopData row rowNum reqs [] k
  match s.fail with
  | none => ⟨s.calls, s.events ++ [Event.rowEnd rowNum], ⟨rowNum, true, none⟩, []⟩
  | some f =>
      ⟨s.calls, s.events ++ [Event.rowEnd rowNum], ⟨rowNum, false, some f.err.message⟩,
        [⟨rowNum, f.name, f.err.status⟩]⟩

/-- The outcome of a batch: one results entry per row, the error log, the
event trace, and the final dispatch counter. -/
structure BatchRun where
  results : List RowResult
  log : List LogEntry
  events : List Event
  calls : ℕ
deriving DecidableEq

/-- part_000 batch processing: rows in order, 1-based numbering, each row's
failure absorbed by the per-row catch. -/
def processCSVP0 (tr : Transport) (delay : ℕ) (reqs : List Request) (loopData : List Row) :
    List Row → ℕ → ℕ → BatchRun
  | [], _, k => ⟨[], [], [], k⟩
  | row :: rs, n, k =>
      let p := processRowP0 tr delay reqs loopData (n + 1) row k
      let r := processCSVP0 tr delay reqs loopData rs (n + 1) p.calls
      ⟨p.result :: r.results, p.log ++ r.log, p.events ++ r.events, r.calls⟩

/-- Entry point of the part_000 engine on a batch. -/
def processCSV (tr : Transport) (delay : ℕ) (reqs : List Request) (loopData : List Row)
    (rows : List Row) : BatchRun :=
  processCSVP0 tr delay reqs loopData rows 0 0

/-! ### The refactored orchestrator of part_001 (second document)

No conditions and no secondary-table loop; an optional command-line
endpoint template overrides every step's endpoint; extraction is the
guarded-walk variant; the configured delay is awaited once per row, after
the row's terminal state and only when another row follows. -/

structure RequestP1 where
  name : String
  endpoint : String
  method : String
  payloadTemplate : JValue
  extractFromResponse : Option ExtractSpec := none
deriving DecidableEq

/-- One step of the part_001 engine: resolve the endpoint (command-line
override first) and payload against the row and extracted values, dispatch,
and on success run the guarded extraction.  No delay is awaited here. -/
def execStepP1 (tr : Transport) (argvEndpoint : Option String) (row : Row) (rowNum : ℕ)
    (req : RequestP1) (ext : ExtStore) (k : ℕ) : ExecState :=
  let endpointTemplate := argvEndpoint.getD req.endpoint
  let finalUrl := (replaceUrlPlaceholders endpointTemplate (mergeCtx row ext)).1
  let payload := (replacePlaceholders req.payloadTemplate row ext).1
  match tr k with
  | .ok respData =>
      let ext' :=
        match req.extractFromResponse with
        | some spec => (extractFromResponseP1 spec respData ext).1
        | none => ext
      ⟨k + 1, [Event.call rowNum req.name finalUrl payload], ext', none⟩
  | .error e =>
      ⟨k + 1, [Event.call rowNum req.name finalUrl payload], ext, some ⟨req.name, e⟩⟩

/-- The part_001 per-row sequence: steps in order, stopping at the first
failure (caught by the per-row catch). -/
def runStepsP1 (tr : Transport) (argvEndpoint : Option String) (row : Row) (rowNum : ℕ) :
    List RequestP1 → ExtStore → ℕ → ExecState
  | [], ext, k => ⟨k, [], ext, none⟩
  | req :: rest, ext, k =>
      let s := execStepP1 tr argvEndpoint row rowNum req ext k
      match s.fail with
      | some _ => s
      | none =>
          let s2 := runStepsP1 tr argvEndpoint row rowNum rest s.ext s.calls
          ⟨s2.calls, s.events ++ s2.events, s2.ext, s2.fail⟩

/-- part_001 row processing: fresh extracted values, the step sequence, a
terminal `rowEnd`. -/
def processRowP1 (tr : Transport) (argvEndpoint : Option String) (reqs : List RequestP1)
    (rowNum : ℕ) (row : Row) (k : ℕ) : RowRun :=
  let s := runStepsP1 tr argvEndpoint row rowNum reqs [] k
  match s.fail with
  | none => ⟨s.calls, s.events ++ [Event.rowEnd rowNum], ⟨rowNum, true, none⟩, []⟩
  | some f => ⟨s.calls, s.events ++ [Event.rowEnd rowNum], ⟨rowNum, false, some f.err.message⟩, []⟩

/-- part_001 batch processing (lines 788-913 of the second document): rows
in order; after each row's terminal state, the configured delay is awaited
exactly when it is positive and another row follows. -/
def processCSVP1 (tr : Transport) (argvEndpoint : Option String) (delay : ℕ)
    (reqs : List RequestP1) : List Row → ℕ → ℕ → List RowResult × List Event
  | [], _, _ => ([], [])
  | row :: rs, n, k =>
      let p := processRowP1 tr argvEndpoint reqs (n + 1) row k
      let delayEvs := if delay > 0 ∧ rs ≠ [] then [Event.sleep] else []
      let r := processCSVP1 tr argvEndpoint delay reqs rs (n + 1) p.calls
      (p.result :: r.1, p.events ++ delayEvs ++ r.2)

/-- Entry point of the part_001 engine on a batch. -/
def processCSVRefactored (tr : Transport) (argvEndpoint : Option String) (delay : ℕ)
    (reqs : List RequestP1) (rows : List Row) : List RowResult × List Event :=
  processCSVP1 tr argvEndpoint delay reqs rows 0 0

/-! ### Trace predicates -/

def isSleep : Event → Bool
  | .sleep => true
  | _ => false

def isCall : Event → Bool
  | .call _ _ _ _ => true
  | _ => false

def isCallOfRow (rowNum : ℕ) : Event → Bool
  | .call r _ _ _ => r = rowNum
  | _ => false

/-- Row numbers of the dispatches in a trace, in order. -/
def callRows : List Event → List ℕ
  | [] => []
  | .call r _ _ _ :: rest => r :: callRows rest
  | _ :: rest => callRows rest

/-- True when some sleep in the trace separates two dispatches of the same
row: a row already dispatched before the sleep dispatches again after it. -/
def sleepSplitViolation : List ℕ → List Event → Bool
  | _, [] => false
  | seen, .call r _ _ _ :: rest => sleepSplitViolation (r :: seen) rest
  | seen, .sleep :: rest =>
      (seen.any fun r => rest.any (isCallOfRow r)) || sleepSplitViolation seen rest
  | seen, .rowEnd _ :: rest => sleepSplitViolation seen rest

/-- A trace honors the between-rows delay discipline when no sleep falls
between two dispatches of the same row. -/
def intraRowSleepFree (evs : List Event) : Bool := ! sleepSplitViolation [] evs

/-- Every sleep of the trace is immediately preceded by a `rowEnd`: the
delay happens after the current row reaches its terminal state. -/
def sleepsOnlyAfterRowEndAux : Option Event → List Event → Bool
  | prev, .sleep :: rest =>
      (match prev with
       | some (.rowEnd _) => true
       | _ => false)
      && sleepsOnlyAfterRowEndAux (some .sleep) rest
  | _, e :: rest => sleepsOnlyAfterRowEndAux (some e) rest
  | _, [] => true

def sleepsOnlyAfterRowEnd (evs : List Event) : Bool := sleepsOnlyAfterRowEndAux none evs

/-- No sleep occurs in the trace. -/
def noSleep (evs : List Event) : Bool := evs.all fun e => ! isSleep e

/-- Every dispatch in the trace is tagged with the given row number. -/
def callsRowEq (rowNum : ℕ) (evs : List Event) : Bool :=
  evs.all fun e =>
    match e with
    | .call r _ _ _ => r = rowNum
    | _ => true

/-- Every dispatch in the trace is tagged with a row number at least `m`. -/
def callsRowGe (m : ℕ) (evs : List Event) : Bool :=
  evs.all fun e =>
    match e with
    | .call r _ _ _ => m ≤ r
    | _ => true

/-- The seen-rows accumulator of `sleepSplitViolation` after scanning a
trace prefix. -/
def seenAfter : List Event → List ℕ → List ℕ
  | [], seen => seen
  | .call r _ _ _ :: l, seen => seenAfter l (r :: seen)
  | _ :: l, seen => seenAfter l seen

/-- The last event of the trace, defaulting to the given previous event. -/
def lastEvent : List Event → Option Event → Option Event
  | [], prev => prev
  | e :: l, _ => lastEvent l (some e)

/-- A data-context property that substitutes into a URL: present and
neither undefined nor null. -/
def isDefinedNonNull : Option JValue → Bool
  | some v => ! isNull v
  | none => false

/-- The data context with its undefined and null bindings removed; used to
state that a null value behaves exactly like an absent name. -/
def removeNullish (ctx : DataCtx) : DataCtx :=
  ctx.filter fun kv => isDefinedNonNull kv.2

/-! ### Claim theorems -/

theorem extLookup_insert_self (ext : ExtStore) (f : String) (v : Option JValue) :
    extLookup (extInsert ext f v) f = v := by
  simp [extLookup, extInsert, List.lookup]

/-- The substitution performed on one `$`-leaf whose name is flat (no dot),
missed by the extracted layer, found in the row, and not the designated
embedded-array column: the coerced cell, with no warning. -/
theorem leafResolve_row_coerce (rowData : Row) (extractedData : ExtStore) (s v : String)
    (h1 : strStartsWithChar s '$' = true)
    (h2 : strContainsChar (s.drop 1) '.' = false)
    (h3 : extLookup extractedData (s.drop 1) = none)
    (h4 : rowData.lookup (s.drop 1) = some v)
    (h5 : ¬ s.drop 1 = "offeringProducts") :
    leafResolve rowData extractedData s = (coerceCell v, []) := by
  simp [leafResolve, h1, h2, h3, h4, h5]

/-- C2 (counterexample): a payload placeholder absent from both the
extracted layer and the row is left unresolved, but — against the claim —
no warning at all is emitted by the payload resolver. -/
theorem C2_counterexample_missing_payload_placeholder_silent :
    replacePlaceholders (.obj [("k", .str "$missing")]) [] []
      = (.obj [("k", .str "$missing")], []) := by decide

/-- C2 (amended): placeholder resolution uses the layered lookup — the
extracted-values layer first, then the row's columns — and a name absent
from both layers leaves the `$name` token unresolved and never throws;
the URL resolver warns about such a token, while the payload resolver is
silent about it (its only warning is the embedded-array parse failure). -/
theorem C2_layered_lookup_amended :
    (∀ (rowData : Row) (extractedData : ExtStore) (s : String) (w : JValue),
      strStartsWithChar s '$' = true →
      strContainsChar (s.drop 1) '.' = false →
      extLookup extractedData (s.drop 1) = some w →
      leafResolve rowData extractedData s = (w, []))
    ∧ (∀ (rowData : Row) (extractedData : ExtStore) (s v : String),
      strStartsWithChar s '$' = true →
      strContainsChar (s.drop 1) '.' = false →
      extLookup extractedData (s.drop 1) = none →
      rowData.lookup (s.drop 1) = some v →
      ¬ s.drop 1 = "offeringProducts" →
      leafResolve rowData extractedData s = (coerceCell v, []))
    ∧ (∀ (rowData : Row) (extractedData : ExtStore) (s : String),
      strStartsWithChar s '$' = true →
      strContainsChar (s.drop 1) '.' = false →
      extLookup extractedData (s.drop 1) = none →
      rowData.lookup (s.drop 1) = none →
      leafResolve rowData extractedData s = (.str s, []))
    ∧ (∀ (ctx : DataCtx) (fuel : ℕ) (nameCs : List Char),
      ¬ nameCs = [] →
      nameCs.takeWhile isWordChar = nameCs →
      jsGet ctx (String.mk nameCs) = none →
      scanUrl ctx (fuel + 1) false ('$' :: nameCs)
        = ('$' :: nameCs, [String.mk nameCs])) := by
  refine ⟨?_, ?_, ?_, ?_⟩
  · intro rowData extractedData s w h1 h2 h3
    simp [leafResolve, h1, h2, h3]
  · intro rowData extractedData s v h1 h2 h3 h4 h5
    exact leafResolve_row_coerce rowData extractedData s v h1 h2 h3 h4 h5
  · intro rowData extractedData s h1 h2 h3 h4
    simp [leafResolve, h1, h2, h3, h4]
  · intro ctx fuel nameCs h1 h2 h3
    have hnil : ∀ (fuel : ℕ) (b : Bool), scanUrl ctx fuel b [] = ([], []) := by
      intro fuel b
      cases fuel <;> simp [scanUrl]
    simp [scanUrl, h1, h2, h3, hnil]

/-- C2 (witness). -/
theorem C2_layered_lookup_amended_witness :
    leafResolve [("price", "25")] [("price", some (.str "x"))] "$price" = (.str "x", [])
    ∧ leafResolve [("price", "25")] [] "$price" = (.num ⟨25, 1⟩, [])
    ∧ leafResolve [] [] "$price" = (.str "$price", [])
    ∧ scanUrl [] 9 false ('$' :: "price".toList) = ('$' :: "price".toList, ["price"]) := by
  refine ⟨?_, ?_, ?_, ?_⟩
  · exact C2_layered_lookup_amended.1 [("price", "25")] [("price", some (.str "x"))]
      "$price" (.str "x") (by decide) (by decide) (by decide)
  · have h := C2_layered_lookup_amended.2.1 [("price", "25")] [] "$price" "25"
      (by decide) (by decide) (by decide) (by decide) (by decide)
    rw [h]
    decide
  · exact C2_layered_lookup_amended.2.2.1 [] [] "$price"
      (by decide) (by decide) (by decide) (by decide)
  · exact C2_layered_lookup_amended.2.2.2 [] 8 "price".toList
      (by decide) (by decide) (by decide)

/-- C3: for every string cell substituted as a whole-value payload
placeholder (other than the designated embedded-array column), coercion
yields null for the empty string or the literal "null", a boolean for
"true"/"false", a number for any string fully parseable as a number
("007" becomes the number 7), and the original string otherwise; the
substitution is a pure function of the original row, so the source row is
never mutated — two leaves naming the same column both see the original
cell. -/
theorem C3_cell_coercion :
    (∀ (rowData : Row) (extractedData : ExtStore) (s v : String),
      strStartsWithChar s '$' = true →
      strContainsChar (s.drop 1) '.' = false →
      extLookup extractedData (s.drop 1) = none →
      rowData.lookup (s.drop 1) = some v →
      ¬ s.drop 1 = "offeringProducts" →
      leafResolve rowData extractedData s = (coerceCell v, [])
      ∧ replacePlaceholders (.obj [("a", .str s), ("b", .str s)]) rowData extractedData
          = (.obj [("a", coerceCell v), ("b", coerceCell v)], []))
    ∧ (coerceCell "" = .null ∧ coerceCell "null" = .null ∧ coerceCell "true" = .bool true
      ∧ coerceCell "false" = .bool false ∧ coerceCell "007" = .num ⟨7, 1⟩)
    ∧ (∀ (v : String) (q : JNum), ¬ v = "null" → ¬ v = "true" → ¬ v = "false" →
        ¬ strTrim v = "" → jsToNumber v = some q → coerceCell v = .num q)
    ∧ (∀ v : String, jsToNumber v = none → ¬ v = "null" → ¬ v = "true" → ¬ v = "false" →
        coerceCell v = .str v) := by
  refine ⟨?_, by decide, ?_, ?_⟩
  · intro rowData extractedData s v h1 h2 h3 h4 h5
    have hl := leafResolve_row_coerce rowData extractedData s v h1 h2 h3 h4 h5
    refine ⟨hl, ?_⟩
    simp [replacePlaceholders, resolveNode, resolveFields, hl]
  · intro v q h1 h2 h3 h4 h5
    have hv : ¬ v = "" := by
      intro h
      exact h4 (by simp [h, strTrim])
    simp [coerceCell, h1, h2, h3, h4, h5, hv]
  · intro v h1 h2 h3 h4
    have hv : ¬ v = "" := by
      intro h
      rw [h] at h1
      simp [jsToNumber, strTrim] at h1
    simp [coerceCell, h1, h2, h3, h4, hv]

/-- C3 (witness). -/
theorem C3_cell_coercion_witness :
    leafResolve [("price", "007")] [] "$price" = (.num ⟨7, 1⟩, [])
    ∧ replacePlaceholders (.obj [("a", .str "$price"), ("b", .str "$price")])
        [("price", "007")] [] = (.obj [("a", .num ⟨7, 1⟩), ("b", .num ⟨7, 1⟩)], [])
    ∧ coerceCell "abc9" = .str "abc9" := by
  have h := C3_cell_coercion.1 [("price", "007")] [] "$price" "007"
    (by decide) (by decide) (by decide) (by decide) (by decide)
  have hc : coerceCell "007" = .num ⟨7, 1⟩ := C3_cell_coercion.2.1.2.2.2.2
  have hs := C3_cell_coercion.2.2.2 "abc9" (by decide) (by decide) (by decide) (by decide)
  exact ⟨hc ▸ h.1, hc ▸ h.2, hs⟩

/-- C9 (counterexample): the whitespace-only cell " " is a non-empty string,
yet the embedded-array column maps it to null directly — it is not wrapped
in brackets and parsed (which would give the empty array), and no warning is
surfaced. -/
theorem C9_counterexample_blank_offering_value :
    replacePlaceholders (.obj [("k", .str "$offeringProducts")])
      [("offeringProducts", " ")] [] = (.obj [("k", .null)], [])
    ∧ ¬ replacePlaceholders (.obj [("k", .str "$offeringProducts")])
      [("offeringProducts", " ")] [] = (.obj [("k", .arr [])], []) := by decide

/-- C9 (amended): for the designated embedded-array column, every string
value that is non-blank after trimming is trimmed, wrapped in brackets
unless already bracketed, and parsed as nested data; on parse failure the
substituted value becomes null and a warning is surfaced, never a fatal
error for the row; a blank or empty value becomes null silently. -/
theorem C9_embedded_array_amended :
    (∀ (rowData : Row) (extractedData : ExtStore) (s v : String),
      strStartsWithChar s '$' = true →
      strContainsChar (s.drop 1) '.' = false →
      extLookup extractedData (s.drop 1) = none →
      s.drop 1 = "offeringProducts" →
      rowData.lookup "offeringProducts" = some v →
      leafResolve rowData extractedData s = offeringResolve v)
    ∧ (∀ (v : String) (j : JValue), ¬ strTrim v = "" →
        jsonParse (if strStartsWithChar (strTrim v) '[' ∧ strEndsWithChar (strTrim v) ']'
          then strTrim v else "[" ++ strTrim v ++ "]") = some j →
        offeringResolve v = (j, []))
    ∧ (∀ v : String, ¬ strTrim v = "" →
        jsonParse (if strStartsWithChar (strTrim v) '[' ∧ strEndsWithChar (strTrim v) ']'
          then strTrim v else "[" ++ strTrim v ++ "]") = none →
        (offeringResolve v).1 = .null ∧ ¬ (offeringResolve v).2 = [])
    ∧ (∀ v : String, strTrim v = "" → offeringResolve v = (.null, [])) := by
  refine ⟨?_, ?_, ?_, ?_⟩
  · intro rowData extractedData s v h1 h2 h3 h4 h5
    rw [h4] at h2 h3
    simp [leafResolve, h1, h2, h3, h4, h5]
  · intro v j h1 h2
    simp [offeringResolve, h1, h2]
  · intro v h1 h2
    simp [offeringResolve, h1, h2]
  · intro v h1
    simp [offeringResolve, h1]

/-- C9 (witness). -/
theorem C9_embedded_array_amended_witness :
    leafResolve [("offeringProducts", "1,2")] [] "$offeringProducts"
      = offeringResolve "1,2"
    ∧ offeringResolve "1,2" = (.arr [.num ⟨1, 1⟩, .num ⟨2, 1⟩], [])
    ∧ (offeringResolve "a,b").1 = .null ∧ ¬ (offeringResolve "a,b").2 = []
    ∧ offeringResolve " " = (.null, []) := by
  refine ⟨?_, ?_, ?_, ?_, ?_⟩
  · exact C9_embedded_array_amended.1 [("offeringProducts", "1,2")] [] "$offeringProducts"
      "1,2" (by decide) (by decide) (by decide) (by decide) (by decide)
  · have h := C9_embedded_array_amended.2.1 "1,2" (.arr [.num ⟨1, 1⟩, .num ⟨2, 1⟩])
      (by decide) (by decide)
    exact h
  · exact (C9_embedded_array_amended.2.2.1 "a,b" (by decide) (by decide)).1
  · exact (C9_embedded_array_amended.2.2.1 "a,b" (by decide) (by decide)).2
  · exact C9_embedded_array_amended.2.2.2 " " (by decide)

/-- C7 (counterexample): in the part_000 engine, an extraction whose dot
path misses the response body stores `undefined` (the field reads as absent,
not null) and emits no warning. -/
theorem C7_counterexample_p0_extraction_undefined_silent :
    extractFromResponseP0 [⟨"f", "a.b"⟩] (.obj []) [] = ([("f", none)], [])
    ∧ extLookup (extractFromResponseP0 [⟨"f", "a.b"⟩] (.obj []) []).1 "f" = none
    ∧ ¬ extLookup (extractFromResponseP0 [⟨"f", "a.b"⟩] (.obj []) []).1 "f"
        = some .null := by decide

/-- C7 (amended): in the part_001 engine, whenever the guarded walk of an
extraction spec ends undefined or null (a missing intermediate key or a null
value), the target field is set to null in the extracted-values mapping and
a warning is emitted; and extraction never aborts the row — a step whose
dispatch succeeded reports no failure regardless of its extraction outcome.
In the part_000 engine the walk short-circuits the same way, but the field
is stored as `undefined` and no warning is emitted. -/
theorem C7_extraction_nullfill_amended :
    (∀ (spec : ExtractSpec) (data : JValue) (ext : ExtStore),
      ((walkP1 (some data) (strSplitOnChar spec.jsonPath '.')).1 = none
        ∨ (walkP1 (some data) (strSplitOnChar spec.jsonPath '.')).1 = some .null) →
      extLookup (extractFromResponseP1 spec data ext).1 spec.field = some .null
      ∧ ¬ (extractFromResponseP1 spec data ext).2 = [])
    ∧ (∀ (spec : ExtractSpec) (data : JValue) (ext : ExtStore),
      (extractFromResponseP0 [spec] data ext).2 = [])
    ∧ (∀ (tr : Transport) (argvEndpoint : Option String) (row : Row) (rowNum : ℕ)
        (req : RequestP1) (ext : ExtStore) (k : ℕ) (respData : JValue),
      tr k = .ok respData →
      (execStepP1 tr argvEndpoint row rowNum req ext k).fail = none) := by
  refine ⟨?_, ?_, ?_⟩
  · intro spec data ext h
    rcases h with h | h
    · constructor
      · simp [extractFromResponseP1, h, isNull, extLookup_insert_self]
      · simp [extractFromResponseP1, h, isNull]
    · constructor
      · simp [extractFromResponseP1, h, isNull, extLookup_insert_self]
      · simp [extractFromResponseP1, h, isNull]
  · intro spec data ext
    simp [extractFromResponseP0]
  · intro tr argvEndpoint row rowNum req ext k respData h
    cases hx : req.extractFromResponse <;> simp [execStepP1, h, hx]

/-- C7 (witness). -/
theorem C7_extraction_nullfill_amended_witness :
    extLookup (extractFromResponseP1 ⟨"f", "a.b"⟩ (.obj []) []).1 "f" = some .null
    ∧ ¬ (extractFromResponseP1 ⟨"f", "a.b"⟩ (.obj []) []).2 = []
    ∧ (execStepP1 (fun _ => .ok (.obj [])) none [] 1
        ⟨"A", "http://e", "POST", .obj [], some ⟨"f", "a.b"⟩⟩ [] 0).fail = none := by
  have h := C7_extraction_nullfill_amended.1 ⟨"f", "a.b"⟩ (.obj []) []
    (Or.inl (by decide))
  refine ⟨h.1, h.2, ?_⟩
  exact C7_extraction_nullfill_amended.2.2 (fun _ => .ok (.obj [])) none [] 1
    ⟨"A", "http://e", "POST", .obj [], some ⟨"f", "a.b"⟩⟩ [] 0 (.obj []) rfl

/-- C8 (counterexample): the simplified rewrite of the engine (part_002)
fails closed — a condition with an unrecognized operator evaluates to not
satisfied, so the step is skipped rather than executed. -/
theorem C8_counterexample_p2_unknown_operator_fail_closed :
    Part002.evaluateCondition ⟨"price", "~", .num ⟨25, 1⟩⟩ [("price", "25")] = false := by
  decide

/-- C8 (amended): the multi-request engine (part_000) fails open — a
comparison condition whose operator is unrecognized evaluates to satisfied
and the step executes (its dispatch appears in the trace) — while the
part_002 variant fails closed, evaluating every unrecognized operator to
false. -/
theorem C8_unknown_operator_amended :
    (∀ (l r : JValue) (op : String) (ext : ExtStore),
      ¬ op ∈ ([">", ">=", "<", "<=", "==", "===", "!=", "!=="] : List String) →
      evaluateCondition (some (.comparison l op r)) ext = true)
    ∧ (∀ (tr : Transport) (delay : ℕ) (loopData : List Row) (row : Row) (rowNum : ℕ)
        (req : Request) (ext : ExtStore) (k : ℕ) (l r : JValue) (op : String),
      req.condition = some (.comparison l op r) →
      ¬ op ∈ ([">", ">=", "<", "<=", "==", "===", "!=", "!=="] : List String) →
      req.loopOver = false →
      ∃ url payload restEvents,
        (execStepP0 tr delay loopData row rowNum req ext k).events
          = Event.call rowNum req.name url payload :: restEvents)
    ∧ (∀ (c : CondP2) (row : Row),
      ¬ c.operator ∈ ([">", "<", ">=", "<=", "==", "!=", "exists"] : List String) →
      Part002.evaluateCondition c row = false) := by
  have hopen : ∀ (l r : JValue) (op : String) (ext : ExtStore),
      ¬ op ∈ ([">", ">=", "<", "<=", "==", "===", "!=", "!=="] : List String) →
      evaluateCondition (some (.comparison l op r)) ext = true := by
    intro l r op ext hmem
    simp only [List.mem_cons, List.not_mem_nil, or_false, not_or] at hmem
    obtain ⟨n1, n2, n3, n4, n5, n6, n7, n8⟩ := hmem
    simp [evaluateCondition, evalComparison, n1, n2, n3, n4, n5, n6, n7, n8]
  refine ⟨hopen, ?_, ?_⟩
  · intro tr delay loopData row rowNum req ext k l r op hcond hmem hloop
    have hc := hopen l r op ext hmem
    cases htr : tr k with
    | ok respData =>
        refine ⟨(replaceUrlPlaceholders req.endpoint (mergeCtx row ext)).1,
          (replacePlaceholders req.payloadTemplate row ext).1,
          (if delay > 0 then [Event.sleep] else []), ?_⟩
        simp [execStepP0, hcond, hc, hloop, doCallP0, htr]
    | error e =>
        refine ⟨(replaceUrlPlaceholders req.endpoint (mergeCtx row ext)).1,
          (replacePlaceholders req.payloadTemplate row ext).1, [], ?_⟩
        simp [execStepP0, hcond, hc, hloop, doCallP0, htr]
  · intro c row hmem
    simp only [List.mem_cons, List.not_mem_nil, or_false, not_or] at hmem
    obtain ⟨n1, n2, n3, n4, n5, n6, n7⟩ := hmem
    simp [Part002.evaluateCondition, n1, n2, n3, n4, n5, n6, n7]

/-- C8 (witness). -/
theorem C8_unknown_operator_amended_witness :
    evaluateCondition (some (.comparison (.str "a") "~" (.str "b"))) [] = true
    ∧ (∃ url payload restEvents,
        (execStepP0 (fun _ => .ok (.obj [])) 0 [] [] 1
          ⟨"A", "http://e", "POST", .obj [],
            some (.comparison (.str "a") "~" (.str "b")), false, []⟩ [] 0).events
          = Event.call 1 "A" url payload :: restEvents)
    ∧ Part002.evaluateCondition ⟨"price", "===", .num ⟨25, 1⟩⟩ [("price", "25")] = false := by
  refine ⟨?_, ?_, ?_⟩
  · exact C8_unknown_operator_amended.1 (JValue.str "a") (JValue.str "b") "~" [] (by decide)
  · exact C8_unknown_operator_amended.2.1 (fun _ => .ok (.obj [])) 0 [] [] 1
      ⟨"A", "http://e", "POST", .obj [],
        some (.comparison (.str "a") "~" (.str "b")), false, []⟩ [] 0
      (JValue.str "a") (JValue.str "b") "~" rfl (by decide) rfl
  · exact C8_unknown_operator_amended.2.2 ⟨"price", "===", .num ⟨25, 1⟩⟩
      [("price", "25")] (by decide)

/-- C4 (counterexample): a step with condition `$price > 20` is skipped —
and not executed — for a row whose column price is "25", because the
part_000 evaluator resolves condition operands against the extracted-values
store only and never consults the row: with nothing extracted yet, `$price`
is undefined, `undefined > 20` is false, and the trace contains no dispatch
while the row still succeeds. -/
theorem C4_counterexample_row_price_not_consulted :
    evaluateCondition (some (.comparison (.str "$price") ">" (.num ⟨20, 1⟩))) [] = false
    ∧ (processCSV (fun _ => .ok (.obj [])) 0
        [⟨"step1", "http://e", "POST", .obj [],
          some (.comparison (.str "$price") ">" (.num ⟨20, 1⟩)), false, []⟩]
        [] [[("price", "25")]]).events = [.rowEnd 1]
    ∧ (processCSV (fun _ => .ok (.obj [])) 0
        [⟨"step1", "http://e", "POST", .obj [],
          some (.comparison (.str "$price") ">" (.num ⟨20, 1⟩)), false, []⟩]
        [] [[("price", "25")]]).results = [⟨1, true, none⟩] := by decide

/-- C4 (amended): condition operands that are `$name` tokens are resolved
against the extracted-values layer only (the evaluator is never given the
row).  For the condition `$price > 20`, a context whose extracted price is
"25" satisfies it and one whose extracted price is "15" does not; a step
whose condition is unsatisfied is skipped without calling the executor (no
dispatch, no state change, no failure), and a row all of whose steps are
skipped still reaches Succeeded. -/
theorem C4_condition_scenario_amended :
    (∀ ext : ExtStore, extLookup ext "price" = some (.str "25") →
      evaluateCondition (some (.comparison (.str "$price") ">" (.num ⟨20, 1⟩))) ext = true)
    ∧ (∀ ext : ExtStore, extLookup ext "price" = some (.str "15") →
      evaluateCondition (some (.comparison (.str "$price") ">" (.num ⟨20, 1⟩))) ext = false)
    ∧ (∀ (tr : Transport) (delay : ℕ) (loopData : List Row) (row : Row) (rowNum : ℕ)
        (req : Request) (ext : ExtStore) (k : ℕ),
      evaluateCondition req.condition ext = false →
      execStepP0 tr delay loopData row rowNum req ext k = ⟨k, [], ext, none⟩)
    ∧ (∀ (tr : Transport) (delay : ℕ) (loopData : List Row) (reqs : List Request)
        (row : Row) (rowNum : ℕ) (k : ℕ),
      (∀ req ∈ reqs, evaluateCondition req.condition [] = false) →
      processRowP0 tr delay reqs loopData rowNum row k
        = ⟨k, [Event.rowEnd rowNum], ⟨rowNum, true, none⟩, []⟩) := by
  have hskip : ∀ (tr : Transport) (delay : ℕ) (loopData : List Row) (row : Row)
      (rowNum : ℕ) (req : Request) (ext : ExtStore) (k : ℕ),
      evaluateCondition req.condition ext = false →
      execStepP0 tr delay loopData row rowNum req ext k = ⟨k, [], ext, none⟩ := by
    intro tr delay loopData row rowNum req ext k h
    simp [execStepP0, h]
  have hr : ∀ ext : ExtStore, resolveOperand ext (.str "$price") = extLookup ext "price" := by
    intro ext
    have hd : ("$price".drop 1) = "price" := rfl
    simp [resolveOperand, show strStartsWithChar "$price" '$' = true from rfl, hd]
  have hn : ∀ (ext : ExtStore) (q : JNum), resolveOperand ext (.num q) = some (.num q) :=
    fun _ _ => rfl
  refine ⟨?_, ?_, hskip, ?_⟩
  · intro ext h
    simp [evaluateCondition, hr, hn, h]
    decide
  · intro ext h
    simp [evaluateCondition, hr, hn, h]
    decide
  · intro tr delay loopData reqs row rowNum k hall
    have hrun : ∀ (reqs : List Request) (k : ℕ),
        (∀ req ∈ reqs, evaluateCondition req.condition [] = false) →
        runStepsP0 tr delay loopData row rowNum reqs [] k = ⟨k, [], [], none⟩ := by
      intro reqs
      induction reqs with
      | nil => intro k _; simp [runStepsP0]
      | cons req rest ih =>
          intro k hall
          have h1 := hall req (by simp)
          have hstep := hskip tr delay loopData row rowNum req [] k h1
          simp [runStepsP0, hstep, ih k (fun r hr2 => hall r (by simp [hr2]))]
    simp [processRowP0, hrun reqs k hall]

/-- C4 (witness). -/
theorem C4_condition_scenario_amended_witness :
    evaluateCondition (some (.comparison (.str "$price") ">" (.num ⟨20, 1⟩)))
      [("price", some (.str "25"))] = true
    ∧ evaluateCondition (some (.comparison (.str "$price") ">" (.num ⟨20, 1⟩)))
      [("price", some (.str "15"))] = false
    ∧ execStepP0 (fun _ => .ok (.obj [])) 0 [] [] 1
        ⟨"A", "http://e", "POST", .obj [],
          some (.comparison (.str "$price") ">" (.num ⟨20, 1⟩)), false, []⟩
        [("price", some (.str "15"))] 0
        = ⟨0, [], [("price", some (.str "15"))], none⟩
    ∧ processRowP0 (fun _ => .ok (.obj [])) 0
        [⟨"A", "http://e", "POST", .obj [],
          some (.comparison (.str "$price") ">" (.num ⟨20, 1⟩)), false, []⟩] [] 1
        [("price", "15")] 0
        = ⟨0, [Event.rowEnd 1], ⟨1, true, none⟩, []⟩ := by
  refine ⟨?_, ?_, ?_, ?_⟩
  · exact C4_condition_scenario_amended.1 [("price", some (.str "25"))] (by decide)
  · exact C4_condition_scenario_amended.2.1 [("price", some (.str "15"))] (by decide)
  · exact C4_condition_scenario_amended.2.2.1 (fun _ => .ok (.obj [])) 0 [] [] 1
      ⟨"A", "http://e", "POST", .obj [],
        some (.comparison (.str "$price") ">" (.num ⟨20, 1⟩)), false, []⟩
      [("price", some (.str "15"))] 0 (by decide)
  · exact C4_condition_scenario_amended.2.2.2 (fun _ => .ok (.obj [])) 0 []
      [⟨"A", "http://e", "POST", .obj [],
        some (.comparison (.str "$price") ">" (.num ⟨20, 1⟩)), false, []⟩]
      [("price", "15")] 1 0 (by decide)

/-- C5 (counterexample): a loop step resolves its payload against the
secondary-table row and the extracted values only — the primary row's
columns are not part of the repetition context, so a placeholder naming a
primary-only column stays unresolved in the dispatched payload. -/
theorem C5_counterexample_primary_row_absent_from_loop_context :
    (processCSV (fun _ => .ok (.obj [])) 0
      [⟨"L", "http://e", "POST", .obj [("k", .str "$acct")], none, true, []⟩]
      [[("x", "1")]] [[("acct", "A1")]]).events
      = [.call 1 "L" "http://e" (.obj [("k", .str "$acct")]), .rowEnd 1]
    ∧ ¬ (processCSV (fun _ => .ok (.obj [])) 0
      [⟨"L", "http://e", "POST", .obj [("k", .str "$acct")], none, true, []⟩]
      [[("x", "1")]] [[("acct", "A1")]]).events
      = [.call 1 "L" "http://e" (.obj [("k", .str "A1")]), .rowEnd 1] := by decide

/-- C5 (amended): for every loop step whose dispatches all succeed (stated
here for steps without extraction specs, so the context is constant across
repetitions), the HTTP call is repeated exactly once per secondary-table
row, and the resolution context of each repetition is that secondary row's
columns together with the extracted values accumulated so far — the
primary row's columns are not consulted. -/
theorem C5_loop_step_amended :
    ∀ (tr : Transport) (delay : ℕ) (req : Request) (rowNum : ℕ) (loopData : List Row)
      (ext : ExtStore) (k : ℕ),
      req.extractFromResponse = [] →
      (∀ i, i < loopData.length → ∃ r, tr (k + i) = .ok r) →
      loopCallsP0 tr delay req rowNum loopData ext k
        = ⟨k + loopData.length,
            (loopData.map fun lr =>
              Event.call rowNum req.name
                (replaceUrlPlaceholders req.endpoint (mergeCtx lr ext)).1
                (replacePlaceholders req.payloadTemplate lr ext).1
              :: if delay > 0 then [Event.sleep] else []).flatten,
            ext, none⟩ := by
  intro tr delay req rowNum loopData ext
  induction loopData with
  | nil =>
      intro k hext htr
      simp [loopCallsP0]
  | cons lr rest ih =>
      intro k hext htr
      obtain ⟨r0, h0⟩ := htr 0 (by simp)
      simp only [Nat.add_zero] at h0
      have hdo : doCallP0 tr delay req lr rowNum ext k
          = ⟨k + 1, Event.call rowNum req.name
              (replaceUrlPlaceholders req.endpoint (mergeCtx lr ext)).1
              (replacePlaceholders req.payloadTemplate lr ext).1
              :: (if delay > 0 then [Event.sleep] else []), ext, none⟩ := by
        simp [doCallP0, h0, hext, extractFromResponseP0]
      have ih2 := ih (k + 1) hext (fun i hi => ?_)
      · have hgoal : loopCallsP0 tr delay req rowNum (lr :: rest) ext k
            = ⟨(loopCallsP0 tr delay req rowNum rest ext (k + 1)).calls,
                (doCallP0 tr delay req lr rowNum ext k).events
                  ++ (loopCallsP0 tr delay req rowNum rest ext (k + 1)).events,
                (loopCallsP0 tr delay req rowNum rest ext (k + 1)).ext,
                (loopCallsP0 tr delay req rowNum rest ext (k + 1)).fail⟩ := by
          simp only [loopCallsP0, hdo]
        rw [hgoal, hdo, ih2]
        simp [Nat.add_assoc, Nat.add_comm 1 rest.length]
      · obtain ⟨r, hr2⟩ := htr (i + 1) (by simpa using Nat.succ_lt_succ hi)
        refine ⟨r, ?_⟩
        rw [show k + 1 + i = k + (i + 1) from by omega]
        exact hr2

/-- C5 (witness). -/
theorem C5_loop_step_amended_witness :
    loopCallsP0 (fun _ => .ok (.obj [])) 0
      ⟨"L", "http://e", "POST", .obj [("k", .str "$x")], none, true, []⟩ 1
      [[("x", "1")], [("x", "2")]] [] 0
      = ⟨0 + 2,
          ([[("x", "1")], [("x", "2")]].map fun lr =>
            Event.call 1 "L"
              (replaceUrlPlaceholders "http://e" (mergeCtx lr [])).1
              (replacePlaceholders (.obj [("k", .str "$x")]) lr []).1
            :: if (0 : ℕ) > 0 then [Event.sleep] else []).flatten,
          [], none⟩ := by
  exact C5_loop_step_amended (fun _ => .ok (.obj [])) 0
    ⟨"L", "http://e", "POST", .obj [("k", .str "$x")], none, true, []⟩ 1
    [[("x", "1")], [("x", "2")]] [] 0 rfl
    (fun i _ => ⟨.obj [], rfl⟩)

/-- C1: for every row, if a request step fails (non-2xx response or
transport error, both modelled as a transport failure), no remaining steps
of that row are executed (the row run equals the failing step's run alone),
the failure carries the failing step's name, the row's results entry records
the error and the error log records the step name and status, and every row
of the batch still produces exactly one outcome — a failed row never aborts
the batch. -/
theorem C1_step_failure_stops_row_and_batch_continues :
    (∀ (tr : Transport) (delay : ℕ) (loopData : List Row) (row : Row) (rowNum : ℕ)
        (req : Request) (rest : List Request) (ext : ExtStore) (k : ℕ) (f : StepFail),
      (execStepP0 tr delay loopData row rowNum req ext k).fail = some f →
      f.name = req.name
      ∧ runStepsP0 tr delay loopData row rowNum (req :: rest) ext k
          = execStepP0 tr delay loopData row rowNum req ext k)
    ∧ (∀ (tr : Transport) (delay : ℕ) (loopData : List Row) (reqs : List Request)
        (row : Row) (rowNum : ℕ) (k : ℕ) (f : StepFail),
      (runStepsP0 tr delay loopData row rowNum reqs [] k).fail = some f →
      (processRowP0 tr delay reqs loopData rowNum row k).result
          = ⟨rowNum, false, some f.err.message⟩
      ∧ (processRowP0 tr delay reqs loopData rowNum row k).log
          = [⟨rowNum, f.name, f.err.status⟩])
    ∧ (∀ (tr : Transport) (delay : ℕ) (reqs : List Request) (loopData : List Row)
        (rows : List Row) (n k : ℕ),
      (processCSVP0 tr delay reqs loopData rows n k).results.length = rows.length) := by
  have hdoname : ∀ (tr : Transport) (delay : ℕ) (req : Request) (ctxRow : Row)
      (rowNum : ℕ) (ext : ExtStore) (k : ℕ) (f : StepFail),
      (doCallP0 tr delay req ctxRow rowNum ext k).fail = some f → f.name = req.name := by
    intro tr delay req ctxRow rowNum ext k f h
    cases htr : tr k <;> simp [doCallP0, htr] at h
    rw [← h]
  have hloopname : ∀ (tr : Transport) (delay : ℕ) (req : Request) (rowNum : ℕ)
      (loopData : List Row) (ext : ExtStore) (k : ℕ) (f : StepFail),
      (loopCallsP0 tr delay req rowNum loopData ext k).fail = some f →
      f.name = req.name := by
    intro tr delay req rowNum loopData
    induction loopData with
    | nil => intro ext k f h; simp [loopCallsP0] at h
    | cons lr rest ih =>
        intro ext k f h
        simp only [loopCallsP0] at h
        cases hfl : (doCallP0 tr delay req lr rowNum ext k).fail with
        | some g =>
            rw [hfl] at h
            simp at h
            exact hdoname tr delay req lr rowNum ext k f h
        | none =>
            rw [hfl] at h
            simp at h
            exact ih _ _ f h
  have hexecname : ∀ (tr : Transport) (delay : ℕ) (loopData : List Row) (row : Row)
      (rowNum : ℕ) (req : Request) (ext : ExtStore) (k : ℕ) (f : StepFail),
      (execStepP0 tr delay loopData row rowNum req ext k).fail = some f →
      f.name = req.name := by
    intro tr delay loopData row rowNum req ext k f h
    simp only [execStepP0] at h
    split at h
    · simp at h
    · split at h
      · exact hloopname tr delay req rowNum loopData ext k f h
      · exact hdoname tr delay req row rowNum ext k f h
  refine ⟨?_, ?_, ?_⟩
  · intro tr delay loopData row rowNum req rest ext k f h
    refine ⟨hexecname tr delay loopData row rowNum req ext k f h, ?_⟩
    simp only [runStepsP0]
    rw [h]
  · intro tr delay loopData reqs row rowNum k f h
    constructor
    · simp [processRowP0, h]
    · simp [processRowP0, h]
  · intro tr delay reqs loopData rows
    induction rows with
    | nil => intro n k; simp [processCSVP0]
    | cons row rs ih =>
        intro n k
        simp [processCSVP0, ih]

/-- C1 (witness). -/
theorem C1_step_failure_witness :
    ((fun tr req => runStepsP0 tr 0 [] [] 1
        [req, ⟨"B", "http://e2", "POST", .obj [], none, false, []⟩] [] 0
        = execStepP0 tr 0 [] [] 1 req [] 0)
      (fun _ => .error ⟨some 500, none, "boom"⟩)
      ⟨"A", "http://e", "POST", .obj [], none, false, []⟩)
    ∧ (processRowP0 (fun _ => .error ⟨some 500, none, "boom"⟩) 0
        [⟨"A", "http://e", "POST", .obj [], none, false, []⟩] [] 1 [] 0).result
        = ⟨1, false, some "boom"⟩
    ∧ (processRowP0 (fun _ => .error ⟨some 500, none, "boom"⟩) 0
        [⟨"A", "http://e", "POST", .obj [], none, false, []⟩] [] 1 [] 0).log
        = [⟨1, "A", some 500⟩]
    ∧ (processCSVP0 (fun _ => .error ⟨some 500, none, "boom"⟩) 0
        [⟨"A", "http://e", "POST", .obj [], none, false, []⟩] [] [[], []] 0 0).results.length
        = 2 := by
  have h1 := (C1_step_failure_stops_row_and_batch_continues.1
    (fun _ => .error ⟨some 500, none, "boom"⟩) 0 [] [] 1
    ⟨"A", "http://e", "POST", .obj [], none, false, []⟩
    [⟨"B", "http://e2", "POST", .obj [], none, false, []⟩] [] 0
    ⟨"A", ⟨some 500, none, "boom"⟩⟩ (by decide)).2
  have h2 := C1_step_failure_stops_row_and_batch_continues.2.1
    (fun _ => .error ⟨some 500, none, "boom"⟩) 0 []
    [⟨"A", "http://e", "POST", .obj [], none, false, []⟩] [] 1 0
    ⟨"A", ⟨some 500, none, "boom"⟩⟩ (by decide)
  have h3 := C1_step_failure_stops_row_and_batch_continues.2.2
    (fun _ => .error ⟨some 500, none, "boom"⟩) 0
    [⟨"A", "http://e", "POST", .obj [], none, false, []⟩] [] [[], []] 0 0
  exact ⟨h1, h2.1, h2.2, h3⟩

/-! Supporting lemmas for the delay-placement claim: the part_001 engine
emits no sleep inside a row, tags every dispatch of a row with that row's
number, and numbers later rows strictly higher, so a sleep can never fall
between two dispatches of the same row. -/

theorem execStepP1_events (tr : Transport) (argvEndpoint : Option String) (row : Row)
    (rowNum : ℕ) (req : RequestP1) (ext : ExtStore) (k : ℕ) :
    (execStepP1 tr argvEndpoint row rowNum req ext k).events
      = [Event.call rowNum req.name
          (replaceUrlPlaceholders (argvEndpoint.getD req.endpoint) (mergeCtx row ext)).1
          (replacePlaceholders req.payloadTemplate row ext).1] := by
  cases htr : tr k <;> simp [execStepP1, htr]

theorem runStepsP1_events_clean (tr : Transport) (argvEndpoint : Option String)
    (row : Row) (rowNum : ℕ) :
    ∀ (reqs : List RequestP1) (ext : ExtStore) (k : ℕ),
      noSleep (runStepsP1 tr argvEndpoint row rowNum reqs ext k).events = true
      ∧ callsRowEq rowNum (runStepsP1 tr argvEndpoint row rowNum reqs ext k).events
          = true := by
  intro reqs
  induction reqs with
  | nil => intro ext k; simp [runStepsP1, noSleep, callsRowEq]
  | cons req rest ih =>
      intro ext k
      obtain ⟨ihn, ihc⟩ := ih (execStepP1 tr argvEndpoint row rowNum req ext k).ext
        (execStepP1 tr argvEndpoint row rowNum req ext k).calls
      have hevs := execStepP1_events tr argvEndpoint row rowNum req ext k
      have hn1 : noSleep (execStepP1 tr argvEndpoint row rowNum req ext k).events = true := by
        simp [hevs, noSleep, isSleep]
      have hc1 : callsRowEq rowNum
          (execStepP1 tr argvEndpoint row rowNum req ext k).events = true := by
        simp [hevs, callsRowEq]
      simp only [runStepsP1]
      cases hfl : (execStepP1 tr argvEndpoint row rowNum req ext k).fail with
      | some g => exact ⟨hn1, hc1⟩
      | none =>
          constructor
          · simp only [noSleep, List.all_append, Bool.and_eq_true]
            exact ⟨by simpa [noSleep] using hn1, by simpa [noSleep] using ihn⟩
          · simp only [callsRowEq, List.all_append, Bool.and_eq_true]
            exact ⟨by simpa [callsRowEq] using hc1, by simpa [callsRowEq] using ihc⟩

theorem processRowP1_events (tr : Transport) (argvEndpoint : Option String)
    (reqs : List RequestP1) (rowNum : ℕ) (row : Row) (k : ℕ) :
    (processRowP1 tr argvEndpoint reqs rowNum row k).events
      = (runStepsP1 tr argvEndpoint row rowNum reqs [] k).events
        ++ [Event.rowEnd rowNum] := by
  cases hfl : (runStepsP1 tr argvEndpoint row rowNum reqs [] k).fail <;>
    simp [processRowP1, hfl]

theorem processRowP1_events_clean (tr : Transport) (argvEndpoint : Option String)
    (reqs : List RequestP1) (rowNum : ℕ) (row : Row) (k : ℕ) :
    noSleep (processRowP1 tr argvEndpoint reqs rowNum row k).events = true
    ∧ callsRowEq rowNum (processRowP1 tr argvEndpoint reqs rowNum row k).events = true := by
  obtain ⟨hn, hc⟩ := runStepsP1_events_clean tr argvEndpoint row rowNum reqs [] k
  rw [processRowP1_events]
  constructor
  · simp only [noSleep, List.all_append, Bool.and_eq_true]
    exact ⟨by simpa [noSleep] using hn, by simp [noSleep, isSleep]⟩
  · simp only [callsRowEq, List.all_append, Bool.and_eq_true]
    exact ⟨by simpa [callsRowEq] using hc, by simp [callsRowEq]⟩

theorem lastEvent_append_single :
    ∀ (l : List Event) (e : Event) (prev : Option Event),
      lastEvent (l ++ [e]) prev = some e := by
  intro l
  induction l with
  | nil => intro e prev; rfl
  | cons a l ih => intro e prev; simp [lastEvent, ih]

theorem ssv_append_noSleep :
    ∀ (l : List Event), noSleep l = true →
    ∀ (rest : List Event) (seen : List ℕ),
      sleepSplitViolation seen (l ++ rest)
        = sleepSplitViolation (seenAfter l seen) rest := by
  intro l
  induction l with
  | nil => intro _ rest seen; rfl
  | cons e l ih =>
      intro h rest seen
      have h2 : noSleep l = true := by
        simp only [noSleep, List.all_cons, Bool.and_eq_true] at h
        exact h.2
      cases e with
      | call r n u p => simp [sleepSplitViolation, seenAfter, ih h2]
      | sleep => simp [noSleep, isSleep] at h
      | rowEnd r => simp [sleepSplitViolation, seenAfter, ih h2]

theorem seenAfter_bound :
    ∀ (l : List Event) (rowNum : ℕ), callsRowEq rowNum l = true →
    ∀ (seen : List ℕ) (r : ℕ), r ∈ seenAfter l seen → r = rowNum ∨ r ∈ seen := by
  intro l
  induction l with
  | nil => intro rowNum _ seen r hr; exact Or.inr hr
  | cons e l ih =>
      intro rowNum h seen r hr
      simp only [callsRowEq, List.all_cons, Bool.and_eq_true] at h
      cases e with
      | call r2 n u p =>
          simp only [seenAfter] at hr
          have h1 : r2 = rowNum := by simpa using h.1
          rcases ih rowNum (by simpa [callsRowEq] using h.2) (r2 :: seen) r hr with h3 | h3
          · exact Or.inl h3
          · rcases List.mem_cons.mp h3 with h4 | h4
            · exact Or.inl (h4.trans h1)
            · exact Or.inr h4
      | sleep =>
          simp only [seenAfter] at hr
          exact ih rowNum (by simpa [callsRowEq] using h.2) seen r hr
      | rowEnd r2 =>
          simp only [seenAfter] at hr
          exact ih rowNum (by simpa [callsRowEq] using h.2) seen r hr

theorem no_call_below :
    ∀ (evs : List Event) (m : ℕ), callsRowGe m evs = true →
    ∀ r : ℕ, r < m → evs.any (isCallOfRow r) = false := by
  intro evs
  induction evs with
  | nil => intro m _ r _; rfl
  | cons e l ih =>
      intro m h r hr
      simp only [callsRowGe, List.all_cons, Bool.and_eq_true] at h
      have ihl := ih m (by simpa [callsRowGe] using h.2) r hr
      cases e with
      | call r2 n u p =>
          have h1 : m ≤ r2 := by simpa using h.1
          simp [List.any_cons, ihl, isCallOfRow]
          omega
      | sleep => simp [List.any_cons, ihl, isCallOfRow]
      | rowEnd r2 => simp [List.any_cons, ihl, isCallOfRow]

theorem callsRowEq_to_ge (evs : List Event) (rowNum m : ℕ) (h : m ≤ rowNum)
    (hc : callsRowEq rowNum evs = true) : callsRowGe m evs = true := by
  simp only [callsRowEq, List.all_eq_true] at hc
  simp only [callsRowGe, List.all_eq_true]
  intro e he
  have := hc e he
  cases e with
  | call r2 n u p => simp at this ⊢; omega
  | sleep => simp
  | rowEnd r2 => simp

theorem callsRowGe_mono (evs : List Event) (m m2 : ℕ) (h : m ≤ m2)
    (hc : callsRowGe m2 evs = true) : callsRowGe m evs = true := by
  simp only [callsRowGe, List.all_eq_true] at hc ⊢
  intro e he
  have := hc e he
  cases e with
  | call r2 n u p => simp at this ⊢; omega
  | sleep => simp
  | rowEnd r2 => simp

theorem callsRowGe_p1 (tr : Transport) (argvEndpoint : Option String) (delay : ℕ)
    (reqs : List RequestP1) :
    ∀ (rs : List Row) (n k : ℕ),
      callsRowGe (n + 1) (processCSVP1 tr argvEndpoint delay reqs rs n k).2 = true := by
  intro rs
  induction rs with
  | nil => intro n k; simp [processCSVP1, callsRowGe]
  | cons row rs ih =>
      intro n k
      simp only [processCSVP1]
      have hrow := (processRowP1_events_clean tr argvEndpoint reqs (n + 1) row k).2
      have h1 : callsRowGe (n + 1)
          (processRowP1 tr argvEndpoint reqs (n + 1) row k).events = true :=
        callsRowEq_to_ge _ _ _ (le_refl _) hrow
      have h2 := callsRowGe_mono _ (n + 1) (n + 2) (by omega)
        (ih (n + 1) (processRowP1 tr argvEndpoint reqs (n + 1) row k).calls)
      simp only [callsRowGe, List.all_append, Bool.and_eq_true] at h1 h2 ⊢
      refine ⟨⟨h1, ?_⟩, h2⟩
      by_cases hd : delay > 0 ∧ ¬ rs = [] <;> simp [hd]

theorem ssv_p1_false (tr : Transport) (argvEndpoint : Option String) (delay : ℕ)
    (reqs : List RequestP1) :
    ∀ (rs : List Row) (n k : ℕ) (seen : List ℕ),
      (∀ r ∈ seen, r ≤ n) →
      sleepSplitViolation seen (processCSVP1 tr argvEndpoint delay reqs rs n k).2
        = false := by
  intro rs
  induction rs with
  | nil => intro n k seen _; simp [processCSVP1, sleepSplitViolation]
  | cons row rs ih =>
      intro n k seen hs
      simp only [processCSVP1]
      rw [List.append_assoc]
      obtain ⟨hclean, hroweq⟩ := processRowP1_events_clean tr argvEndpoint reqs (n + 1) row k
      rw [ssv_append_noSleep _ hclean]
      have hs2 : ∀ r ∈ seenAfter (processRowP1 tr argvEndpoint reqs (n + 1) row k).events
          seen, r ≤ n + 1 := by
        intro r hr
        rcases seenAfter_bound _ _ hroweq seen r hr with h | h
        · omega
        · have := hs r h; omega
      by_cases hd : delay > 0 ∧ ¬ rs = []
      · simp only [if_pos hd, List.singleton_append]
        have hge := callsRowGe_p1 tr argvEndpoint delay reqs rs (n + 1)
          (processRowP1 tr argvEndpoint reqs (n + 1) row k).calls
        have hany : ((seenAfter (processRowP1 tr argvEndpoint reqs (n + 1) row k).events
            seen).any fun r =>
              (processCSVP1 tr argvEndpoint delay reqs rs (n + 1)
                (processRowP1 tr argvEndpoint reqs (n + 1) row k).calls).2.any
                (isCallOfRow r)) = false := by
          rw [List.any_eq_false]
          intro r hr
          have := no_call_below _ _ hge r (by have := hs2 r hr; omega)
          simp [this]
        simp only [sleepSplitViolation, hany, Bool.false_or]
        exact ih (n + 1) _ _ hs2
      · simp only [if_neg hd, List.nil_append]
        exact ih (n + 1) _ _ hs2

theorem aux_append_noSleep :
    ∀ (l : List Event), noSleep l = true →
    ∀ (rest : List Event) (prev : Option Event),
      sleepsOnlyAfterRowEndAux prev (l ++ rest)
        = sleepsOnlyAfterRowEndAux (lastEvent l prev) rest := by
  intro l
  induction l with
  | nil => intro _ rest prev; rfl
  | cons e l ih =>
      intro h rest prev
      have h2 : noSleep l = true := by
        simp only [noSleep, List.all_cons, Bool.and_eq_true] at h
        exact h.2
      cases e with
      | call r n u p => simp [sleepsOnlyAfterRowEndAux, lastEvent, ih h2]
      | sleep => simp [noSleep, isSleep] at h
      | rowEnd r => simp [sleepsOnlyAfterRowEndAux, lastEvent, ih h2]

theorem sleeps_after_rowEnd_p1 (tr : Transport) (argvEndpoint : Option String)
    (delay : ℕ) (reqs : List RequestP1) :
    ∀ (rs : List Row) (n k : ℕ) (prev : Option Event),
      sleepsOnlyAfterRowEndAux prev
        (processCSVP1 tr argvEndpoint delay reqs rs n k).2 = true := by
  intro rs
  induction rs with
  | nil => intro n k prev; rfl
  | cons row rs ih =>
      intro n k prev
      simp only [processCSVP1]
      rw [List.append_assoc]
      obtain ⟨hclean, _⟩ := processRowP1_events_clean tr argvEndpoint reqs (n + 1) row k
      rw [aux_append_noSleep _ hclean]
      rw [processRowP1_events, lastEvent_append_single]
      by_cases hd : delay > 0 ∧ ¬ rs = []
      · simp only [if_pos hd, List.singleton_append]
        simp only [sleepsOnlyAfterRowEndAux, Bool.true_and]
        exact ih (n + 1) _ _
      · simp only [if_neg hd, List.nil_append]
        exact ih (n + 1) _ _

/-- C6 (counterexample): in the part_000 engine a positive configured delay
is awaited after every successful request step, inside the row: the trace
of a one-row two-step batch interleaves sleeps between the row's dispatches,
so the delay does not occur only between consecutive rows. -/
theorem C6_counterexample_delay_between_steps :
    (processCSV (fun _ => .ok (.obj [])) 5
      [⟨"A", "http://e", "POST", .obj [], none, false, []⟩,
       ⟨"B", "http://e", "POST", .obj [], none, false, []⟩]
      [] [[("c", "1")]]).events
      = [.call 1 "A" "http://e" (.obj []), .sleep, .call 1 "B" "http://e" (.obj []),
         .sleep, .rowEnd 1]
    ∧ intraRowSleepFree (processCSV (fun _ => .ok (.obj [])) 5
      [⟨"A", "http://e", "POST", .obj [], none, false, []⟩,
       ⟨"B", "http://e", "POST", .obj [], none, false, []⟩]
      [] [[("c", "1")]]).events = false := by decide

/-- C6 (amended): in the refactored engine of part_001, for every batch run
the delay occurs only between consecutive rows: no sleep ever separates two
dispatches of the same row, and every sleep immediately follows a row's
terminal state.  In the part_000 engine the delay is instead awaited after
each successful step within the row. -/
theorem C6_delay_between_rows_amended :
    ∀ (tr : Transport) (argvEndpoint : Option String) (delay : ℕ)
      (reqs : List RequestP1) (rows : List Row),
      intraRowSleepFree (processCSVRefactored tr argvEndpoint delay reqs rows).2 = true
      ∧ sleepsOnlyAfterRowEnd (processCSVRefactored tr argvEndpoint delay reqs rows).2
          = true := by
  intro tr argvEndpoint delay reqs rows
  constructor
  · have h := ssv_p1_false tr argvEndpoint delay reqs rows 0 0 [] (by simp)
    simp [intraRowSleepFree, processCSVRefactored, h]
  · exact sleeps_after_rowEnd_p1 tr argvEndpoint delay reqs rows 0 0 none

theorem jsGet_none_of_not_mem :
    ∀ (ctx : DataCtx) (n : String), ¬ n ∈ ctx.map Prod.fst → jsGet ctx n = none := by
  intro ctx
  induction ctx with
  | nil => intro n _; rfl
  | cons kv rest ih =>
      intro n hn
      obtain ⟨k, v⟩ := kv
      simp only [List.map_cons, List.mem_cons, not_or] at hn
      have hbeq : (n == k) = false := by
        simp [hn.1]
      simp [jsGet, List.lookup, hbeq]
      have := ih n hn.2
      simpa [jsGet] using this

theorem jsGet_removeNullish :
    ∀ (ctx : DataCtx), (ctx.map Prod.fst).Nodup → ∀ (n : String),
    jsGet (removeNullish ctx) n
      = match jsGet ctx n with
        | some v => if isNull v then none else some v
        | none => none := by
  intro ctx
  induction ctx with
  | nil => intro _ n; rfl
  | cons kv rest ih =>
      intro hnd n
      obtain ⟨k, v⟩ := kv
      simp only [List.map_cons, List.nodup_cons] at hnd
      obtain ⟨hk, hnd2⟩ := hnd
      have ih2 := ih hnd2
      by_cases hkn : n = k
      · subst hkn
        have hbeq : (n == n) = true := by simp
        cases v with
        | none =>
            have hdrop : isDefinedNonNull (none : Option JValue) = false := rfl
            simp only [removeNullish, List.filter_cons, hdrop, if_false, Bool.false_eq_true]
            rw [show (List.filter (fun kv => isDefinedNonNull kv.2) rest) = removeNullish rest
              from rfl]
            rw [ih2 n, jsGet_none_of_not_mem rest n hk]
            simp [jsGet, List.lookup, hbeq]
        | some w =>
            cases hw : isNull w with
            | false =>
                have hkeep : isDefinedNonNull (some w) = true := by
                  simp [isDefinedNonNull, hw]
                simp only [removeNullish, List.filter_cons, hkeep, if_true]
                simp [jsGet, List.lookup, hbeq, hw]
            | true =>
                have hdrop : isDefinedNonNull (some w) = false := by
                  simp [isDefinedNonNull, hw]
                simp only [removeNullish, List.filter_cons, hdrop, Bool.false_eq_true, if_false]
                rw [show (List.filter (fun kv => isDefinedNonNull kv.2) rest)
                  = removeNullish rest from rfl]
                rw [ih2 n, jsGet_none_of_not_mem rest n hk]
                simp [jsGet, List.lookup, hbeq, hw]
      · have hbeq : (n == k) = false := by simp [hkn]
        have hhead : jsGet ((k, v) :: rest) n = jsGet rest n := by
          simp [jsGet, List.lookup, hbeq]
        rw [hhead, ← ih2 n]
        cases hdv : isDefinedNonNull v with
        | true =>
            simp only [removeNullish, List.filter_cons, hdv, if_true]
            simp [jsGet, List.lookup, hbeq, removeNullish]
        | false =>
            simp only [removeNullish, List.filter_cons, hdv, Bool.false_eq_true, if_false]

theorem scanUrl_removeNullish (ctx : DataCtx) (hnd : (ctx.map Prod.fst).Nodup) :
    ∀ (fuel : ℕ) (prevDollar : Bool) (cs : List Char),
      scanUrl (removeNullish ctx) fuel prevDollar cs = scanUrl ctx fuel prevDollar cs := by
  have hget := jsGet_removeNullish ctx hnd
  refine scanUrl.induct ctx
    (fun fuel b cs => scanUrl (removeNullish ctx) fuel b cs = scanUrl ctx fuel b cs)
    ?_ ?_ ?_ ?_ ?_ ?_ ?_ ?_
  · intro b cs; rfl
  · intro fuel b; rfl
  · intro fuel rest ih
    simp [scanUrl, ih]
  · intro fuel prevDollar rest hp nameCs hne ih
    have hne2 : List.takeWhile isWordChar rest = [] := hne
    simp [scanUrl, hp, hne2, ih, -List.takeWhile_eq_nil_iff]
  · intro fuel prevDollar rest hp nameCs hne name tail j hj hnull ih
    have hne2 : ¬ List.takeWhile isWordChar rest = [] := hne
    have hget2 : jsGet (removeNullish ctx) name = none := by
      rw [hget name, hj]
      simp [hnull]
    simp [scanUrl, hp, hne2, hj, hget2, hnull, ih, -List.takeWhile_eq_nil_iff]
  · intro fuel prevDollar rest hp nameCs hne name tail j hj hnull ih
    have hne2 : ¬ List.takeWhile isWordChar rest = [] := hne
    have hget2 : jsGet (removeNullish ctx) name = some j := by
      rw [hget name, hj]
      simp [hnull]
    simp [scanUrl, hp, hne2, hj, hget2, hnull, ih, -List.takeWhile_eq_nil_iff]
  · intro fuel prevDollar rest hp nameCs hne name tail hj ih
    have hne2 : ¬ List.takeWhile isWordChar rest = [] := hne
    have hget2 : jsGet (removeNullish ctx) name = none := by
      rw [hget name, hj]
    simp [scanUrl, hp, hne2, hj, hget2, ih, -List.takeWhile_eq_nil_iff]
  · intro fuel prevDollar c rest hc ih
    simp only [scanUrl]
    rw [ih]

/-- C10: in URL template resolution, a `$name` token whose looked-up value
is null is left unchanged in the output exactly as if the name were absent
(and a warning is emitted): on a duplicate-free data context, resolution is
invariant under deleting the undefined and null bindings; only defined,
non-null values are substituted (and are percent-encoded). -/
theorem C10_url_null_left_unresolved :
    (∀ (ctx : DataCtx) (fuel : ℕ) (nameCs : List Char),
      ¬ nameCs = [] →
      nameCs.takeWhile isWordChar = nameCs →
      (jsGet ctx (String.mk nameCs) = none ∨ jsGet ctx (String.mk nameCs) = some .null) →
      scanUrl ctx (fuel + 1) false ('$' :: nameCs)
        = ('$' :: nameCs, [String.mk nameCs]))
    ∧ (∀ (ctx : DataCtx) (fuel : ℕ) (nameCs : List Char) (w : JValue),
      ¬ nameCs = [] →
      nameCs.takeWhile isWordChar = nameCs →
      jsGet ctx (String.mk nameCs) = some w → ¬ w = .null →
      scanUrl ctx (fuel + 1) false ('$' :: nameCs)
        = ((encodeURIComponent (jsValToString w)).toList, []))
    ∧ (∀ (ctx : DataCtx) (urlTemplate : String),
      (ctx.map Prod.fst).Nodup →
      replaceUrlPlaceholders urlTemplate (removeNullish ctx)
        = replaceUrlPlaceholders urlTemplate ctx) := by
  have hnil : ∀ (ctx : DataCtx) (fuel : ℕ) (b : Bool), scanUrl ctx fuel b [] = ([], []) := by
    intro ctx fuel b
    cases fuel <;> simp [scanUrl]
  refine ⟨?_, ?_, ?_⟩
  · intro ctx fuel nameCs h1 h2 h3
    rcases h3 with h3 | h3
    · simp [scanUrl, h1, h2, h3, hnil]
    · simp [scanUrl, h1, h2, h3, hnil, isNull]
  · intro ctx fuel nameCs w h1 h2 h3 h4
    have hnn : isNull w = false := by
      cases w <;> simp [isNull] at h4 ⊢
    simp [scanUrl, h1, h2, h3, hnn, hnil]
  · intro ctx urlTemplate hnd
    simp [replaceUrlPlaceholders, scanUrl_removeNullish ctx hnd]

/-- C10 (witness). -/
theorem C10_url_null_left_unresolved_witness :
    scanUrl [("id", some .null)] 4 false ('$' :: "id".toList)
      = ('$' :: "id".toList, ["id"])
    ∧ scanUrl [("id", some (.str "a b"))] 4 false ('$' :: "id".toList)
      = ((encodeURIComponent (jsValToString (.str "a b"))).toList, [])
    ∧ replaceUrlPlaceholders "x/$id" (removeNullish [("id", some .null)])
      = replaceUrlPlaceholders "x/$id" [("id", some .null)] := by
  refine ⟨?_, ?_, ?_⟩
  · exact C10_url_null_left_unresolved.1 [("id", some .null)] 3 "id".toList
      (by decide) (by decide) (Or.inr (by decide))
  · exact C10_url_null_left_unresolved.2.1 [("id", some (.str "a b"))] 3 "id".toList
      (.str "a b") (by decide) (by decide) (by decide) (by decide)
  · exact C10_url_null_left_unresolved.2.2 [("id", some .null)] "x/$id" (by simp)

end CsvApi